import Mathlib

/-!
A shallow embedding of the scarpet-parser lexical front end: the `Tokenizer`
(scan cursor, literal readers, operator dispatch, diagnostics) and the
assignment-discovery AST walk (`findAssign`).

Modelling conventions:
* source text is a list of UTF-16 code units (`List Nat`);
* JavaScript `charCodeAt` out of range (`NaN`) is `Option.none`;
* JS `BigInt` is `Int`; the JS floating-point accumulator used for fractional
  literals is `Rat` (exact field arithmetic; no claim below depends on the
  rounding of doubles); the JS number used for the exponent accumulator is
  an integer-valued binary64: each arithmetic step rounds through `jsExpStep`
  (round to nearest, ties to even, 53-bit significand), so the model loses
  precision above 2^53 exactly where the program does;
* mutation of `this` is explicit state passing on `TokState`.
-/

/-- Modelled from the spec: the character classification tables (`char.js`,
generated offline from the Unicode database) and the reserved-constant set
(`CONSTANTS` from `Token.js`) are external collaborators not present in the
sources; they are abstracted as a bundle of total classification functions.
Facts the spec guarantees about the real tables (e.g. that the ASCII digits
are decimal digits) appear as hypotheses of the theorems that need them. -/
structure CharClass where
  isLetter : Nat → Bool
  isWhitespace : Nat → Bool
  isDigit : Nat → Bool
  isHexDigit : Nat → Bool
  isConstant : List Nat → Bool

structure Position where
  pos : Nat
  row : Nat
  col : Nat
deriving DecidableEq, Repr

inductive Diagnostics where
  | ExpectedHexDigit
  | UnicodeDigit
  | LossOfPrecision
  | UnexpectedEof
  | UnknownEscapeSequence
  | UnexpectedComment
  | UnexpectedNewLineMarker
  | UnknownOperator
  | UnexpectedToken
deriving DecidableEq, Repr

/-- A diagnostic report: a kind and a source range (`start`/`end`; the latter
is named `stop` because `end` is reserved in Lean). -/
structure Diagnostic where
  kind : Diagnostics
  start : Position
  stop : Position
deriving DecidableEq, Repr

inductive TokenTypes where
  | String | Number | HexNumber | Function | Constant | Variable | Comment
  | Spread | NewLineMarker | Semicolon | Comma | Colon | Tilde | Not
  | NotEquals | Div | Add | AddAssign | Sub | Arrow | SwapAssign | LtEq | Lt
  | GtEq | Gt | Equals | Assign | Pow | Mul | Mod | And | Or | OpenParen
  | CloseParen | OpenBrack | CloseBrack | OpenBrace | CloseBrace
deriving DecidableEq, Repr

/-- A token value: JS `null`, a `BigInt`, a JS number (fractional literals,
modelled exactly as `Rat`), or a string. -/
inductive TokenValue where
  | null
  | int (v : Int)
  | num (v : Rat)
  | str (s : List Nat)
deriving DecidableEq, Repr

structure Token where
  type : TokenTypes
  start : Position
  stop : Position
  value : TokenValue
  hasError : Bool
deriving DecidableEq, Repr

/-- The mutable state of a `Tokenizer` instance (constructor fields of the
JS class), plus the classification tables it consults. -/
structure TokState where
  cc : CharClass
  input : List Nat
  allowComments : Bool
  allowNewLineMarkers : Bool
  pos : Nat
  row : Nat
  col : Nat
  errors : List Diagnostic
  warnings : List Diagnostic

/-- `new Tokenizer(input, options)`. -/
def mkTokenizer (cc : CharClass) (input : List Nat)
    (allowComments allowNewLineMarkers : Bool)
    (errors warnings : List Diagnostic) : TokState :=
  { cc := cc, input := input, allowComments := allowComments,
    allowNewLineMarkers := allowNewLineMarkers, pos := 0, row := 0, col := 0,
    errors := errors, warnings := warnings }

/-- JS `string.charCodeAt(i)`: the code unit, or `none` for `NaN`. -/
def charCodeAt (l : List Nat) (i : Nat) : Option Nat := l[i]?

/-- `this.getChar()`. -/
def getChar (s : TokState) : Option Nat := charCodeAt s.input s.pos

/-- `this.peekChar()`. -/
def peekChar (s : TokState) : Option Nat := charCodeAt s.input (s.pos + 1)

/-- `this.getPosition()`. -/
def getPosition (s : TokState) : Position := ⟨s.pos, s.row, s.col⟩

/-- `this.error(diagnostic, start, end)`: push onto the `errors` sink. -/
def pushError (s : TokState) (d : Diagnostics) (start stop : Position) :
    TokState :=
  { s with errors := s.errors ++ [⟨d, start, stop⟩] }

/-- `this.error(diagnostic)` with both range ends defaulted to the current
position. -/
def errorHere (s : TokState) (d : Diagnostics) : TokState :=
  pushError s d (getPosition s) (getPosition s)

/-- JS `string.slice(a, b)` for `0 ≤ a, b` (empty when `a ≥ b`, clamped to
the length). -/
def sliceJS (l : List Nat) (a b : Nat) : List Nat := (l.take b).drop a

/-- JS `string.indexOf(c, start)`: the least index `≥ start` holding `c`,
`none` for `-1`. -/
def indexOfFrom (l : List Nat) (c : Nat) (start : Nat) : Option Nat :=
  match (l.drop start).findIdx? (· = c) with
  | some k => some (start + k)
  | none => none

/-- JS `x | 0x20` on a possibly-`NaN` char (`NaN | 0x20` is `0x20`). -/
def orSP (c : Option Nat) : Nat := c.getD 0 ||| 0x20

/-- `this.skipWhitespace()` (lines 76-89 of the tokenizer source). -/
def skipWhitespace (s : TokState) : TokState :=
  if h : s.pos < s.input.length then
    match getChar s with
    | some c =>
      if s.cc.isWhitespace c then
        -- pos++; col++; if (c === \n) { row++; col = 0; }
        if c = 0x0a then
          skipWhitespace { s with pos := s.pos + 1, row := s.row + 1, col := 0 }
        else
          skipWhitespace { s with pos := s.pos + 1, col := s.col + 1 }
      else s
    | none => s
  else s
termination_by s.input.length - s.pos
decreasing_by all_goals simp; omega

/-- The loop of `readIdent` (lines 271-277): consume letters, `_` and
digits. -/
def readIdentLoop (s : TokState) : TokState :=
  if h : s.pos < s.input.length then
    match getChar s with
    | some c =>
      if s.cc.isLetter c || c = 0x5f || s.cc.isDigit c then
        readIdentLoop { s with pos := s.pos + 1, col := s.col + 1 }
      else s
    | none => s
  else s
termination_by s.input.length - s.pos
decreasing_by simp; omega

/-- `this.readIdent()` (lines 266-287). -/
def readIdent (s : TokState) : Token × TokState :=
  let pos0 := getPosition s
  let s1 := readIdentLoop { s with pos := s.pos + 1, col := s.col + 1 }
  let value := sliceJS s1.input pos0.pos s1.pos
  let s2 := skipWhitespace s1
  let tokenType :=
    if getChar s2 = some 0x28 then TokenTypes.Function
    else if s2.cc.isConstant value then TokenTypes.Constant
    else TokenTypes.Variable
  (⟨tokenType, pos0, getPosition s2, TokenValue.str value, false⟩, s2)

/-- `c < 0x3a ? c - 0x30 : (c | 0x20) - 0x57` (line 119), as a signed value
since JS subtraction is signed. -/
def hexVal (c : Nat) : Int :=
  if c < 0x3a then (c : Int) - 0x30 else ((c ||| 0x20 : Nat) : Int) - 0x57

/-- The hex do-while loop of `readNumber` (lines 117-123).  `c` is the
current (already tested) hex digit; BigInt `<<= 4n` followed by `|=` of a
4-bit digit is base-16 accumulation. -/
def readHexLoop (s : TokState) (c : Nat) (intValue : Int) : Int × TokState :=
  let iv := intValue * 16 + hexVal c
  let s1 : TokState := { s with pos := s.pos + 1, col := s.col + 1 }
  if h : s1.pos < s1.input.length then
    match getChar s1 with
    | some c1 =>
      if s1.cc.isHexDigit c1 then readHexLoop s1 c1 iv else (iv, s1)
    | none => (iv, s1)
  else (iv, s1)
termination_by s.input.length - s.pos
decreasing_by simp at h ⊢; omega

/-- The while-loop of `readString` (lines 210-259).  `c` is the character
read at the current cursor position (re-read at the end of every iteration,
line 258); `start` and `value` are the local accumulator variables.  The
loop-body tail (lines 240-258: `pos++`, `col++`, newline bookkeeping on the
current `c`, end-of-input check, re-read) is inlined into each branch of the
escape dispatch. -/
def readStringLoop (pos0 : Position) (s : TokState) (start : Nat)
    (value : List Nat) (c : Option Nat) : Token × TokState :=
  if c = some 0x27 then
    -- loop exit, lines 260-262
    let value1 := value ++ sliceJS s.input start s.pos
    let s1 : TokState := { s with pos := s.pos + 1, col := s.col + 1 }
    (⟨TokenTypes.String, pos0, getPosition s1, TokenValue.str value1, false⟩, s1)
  else if c = some 0x5c then
    -- lines 211-238
    let value1 := value ++ sliceJS s.input start s.pos
    let s1 : TokState := { s with pos := s.pos + 1, col := s.col + 1 }
    let start1 := s1.pos + 1
    if h1 : s1.input.length ≤ s1.pos then
      -- lines 216-225: end of input right after the backslash; the token
      -- keeps the value accumulated so far
      let s2 := errorHere s1 Diagnostics.UnexpectedEof
      (⟨TokenTypes.String, pos0, getPosition s2, TokenValue.str value1, true⟩, s2)
    else
      if getChar s1 = some 0x6e then
        let s2 : TokState := { s1 with pos := s1.pos + 1, col := s1.col + 1 }
        if h2 : s2.input.length ≤ s2.pos then
          let s3 := errorHere s2 Diagnostics.UnexpectedEof
          (⟨TokenTypes.String, pos0, getPosition s3, TokenValue.null, true⟩, s3)
        else readStringLoop pos0 s2 start1 (value1 ++ [0x0a]) (getChar s2)
      else if getChar s1 = some 0x74 then
        let s2 : TokState := { s1 with pos := s1.pos + 1, col := s1.col + 1 }
        if h2 : s2.input.length ≤ s2.pos then
          let s3 := errorHere s2 Diagnostics.UnexpectedEof
          (⟨TokenTypes.String, pos0, getPosition s3, TokenValue.null, true⟩, s3)
        else readStringLoop pos0 s2 start1 (value1 ++ [0x09]) (getChar s2)
      else if getChar s1 = some 0x27 then
        let s2 : TokState := { s1 with pos := s1.pos + 1, col := s1.col + 1 }
        if h2 : s2.input.length ≤ s2.pos then
          let s3 := errorHere s2 Diagnostics.UnexpectedEof
          (⟨TokenTypes.String, pos0, getPosition s3, TokenValue.null, true⟩, s3)
        else readStringLoop pos0 s2 start1 (value1 ++ [0x27]) (getChar s2)
      else if getChar s1 = some 0x5c then
        let s2 : TokState := { s1 with pos := s1.pos + 1, col := s1.col + 1 }
        if h2 : s2.input.length ≤ s2.pos then
          let s3 := errorHere s2 Diagnostics.UnexpectedEof
          (⟨TokenTypes.String, pos0, getPosition s3, TokenValue.null, true⟩, s3)
        else readStringLoop pos0 s2 start1 (value1 ++ [0x5c]) (getChar s2)
      else if getChar s1 = some 0x0a then
        -- unknown escape that is itself a newline: `pos--` then `error(...)`
        -- (lines 235-238, the decrement cancels against the tail's `pos++`),
        -- then the newline bookkeeping of lines 243-246
        let p : Position := ⟨s1.pos - 1, s1.row, s1.col⟩
        let s2e := pushError s1 Diagnostics.UnknownEscapeSequence p p
        let s2 : TokState := { s2e with row := s1.row + 1, col := 0 }
        if h2 : s2.input.length ≤ s2.pos then
          let s5 := errorHere s2 Diagnostics.UnexpectedEof
          (⟨TokenTypes.String, pos0, getPosition s5, TokenValue.null, true⟩, s5)
        else readStringLoop pos0 s2 start1 value1 (getChar s2)
      else
        -- unknown escape, lines 235-238: `pos--` then `error(...)`; the
        -- decrement cancels against the tail's `pos++`, so the position is
        -- unchanged while the column is incremented
        let p : Position := ⟨s1.pos - 1, s1.row, s1.col⟩
        let s2e := pushError s1 Diagnostics.UnknownEscapeSequence p p
        let s2 : TokState := { s2e with col := s1.col + 1 }
        if h2 : s2.input.length ≤ s2.pos then
          let s5 := errorHere s2 Diagnostics.UnexpectedEof
          (⟨TokenTypes.String, pos0, getPosition s5, TokenValue.null, true⟩, s5)
        else readStringLoop pos0 s2 start1 value1 (getChar s2)
  else if c = some 0x0a then
    -- ordinary newline: loop-body tail with the bookkeeping of lines 243-246
    let s2 : TokState :=
      { s with pos := s.pos + 1, row := s.row + 1, col := 0 }
    if h2 : s2.input.length ≤ s2.pos then
      let s4 := errorHere s2 Diagnostics.UnexpectedEof
      (⟨TokenTypes.String, pos0, getPosition s4, TokenValue.null, true⟩, s4)
    else readStringLoop pos0 s2 start value (getChar s2)
  else
    -- ordinary character: just the loop-body tail
    let s2 : TokState := { s with pos := s.pos + 1, col := s.col + 1 }
    if h2 : s2.input.length ≤ s2.pos then
      let s4 := errorHere s2 Diagnostics.UnexpectedEof
      (⟨TokenTypes.String, pos0, getPosition s4, TokenValue.null, true⟩, s4)
    else readStringLoop pos0 s2 start value (getChar s2)
termination_by s.input.length - s.pos
decreasing_by all_goals (simp +zetaDelta [pushError, errorHere,
  apply_ite TokState.pos, apply_ite TokState.input] at *; omega)

/-- `this.readString()` (lines 202-263). -/
def readString (s : TokState) : Token × TokState :=
  let pos0 := getPosition s
  let s1 : TokState := { s with pos := s.pos + 1, col := s.col + 1 }
  readStringLoop pos0 s1 s1.pos [] (getChar s1)

/-- Kernel-computable floor of the base-2 logarithm (`log2Fuel n n` is
`Nat.log2 n` for every `n`); the structural fuel keeps it reducible inside
`decide`, which the concrete counterexample below relies on. -/
def log2Fuel : Nat → Nat → Nat
  | 0, _ => 0
  | fuel + 1, n => if n < 2 then 0 else log2Fuel fuel (n / 2) + 1

/-- Round a non-negative integer to the nearest IEEE-754 binary64 value
(round to nearest, ties to even, 53-bit significand): every natural below
`2 ^ 53` is exact, above it the bits beyond the leading 53 are rounded
away.  This is the rounding JS applies to every arithmetic result on
`number`s.  (The JS accumulator additionally overflows to `Infinity` above
`2 ^ 1024`, where the scanner's `BigInt(exp)` would throw; no statement in
this file goes anywhere near that range.) -/
def flNat (n : Nat) : Nat :=
  if n < 2 ^ 53 then n
  else
    let s := log2Fuel n n - 52
    let q := n / 2 ^ s
    let r := n % 2 ^ s
    if r < 2 ^ (s - 1) then q * 2 ^ s
    else if 2 ^ (s - 1) < r then (q + 1) * 2 ^ s
    else if q % 2 = 0 then q * 2 ^ s else (q + 1) * 2 ^ s

/-- The same binary64 rounding on a signed integer (doubles round
sign-symmetrically). -/
def flInt (x : Int) : Int :=
  if x < 0 then -(flNat x.natAbs : Int) else (flNat x.natAbs : Int)

/-- One step of `readNumber`'s exponent accumulation (lines 140-142):
`exp *= 10; exp += c - 0x30;` on a JS `number`, i.e. both arithmetic
operations round their result to binary64. -/
def jsExpStep (e : Int) (d : Nat) : Int :=
  flInt (flInt (e * 10) + ((d : Int) - 0x30))

/-- Final value composition and token construction of `readNumber`
(lines 179-198).  `10n ** BigInt(exp)` demands a non-negative exponent in
JS; `exp` only ever accumulates digit values, so `Int.toNat` is exact. -/
def numFinish (s : TokState) (intValue : Int) (value : Rat) (exp expSign : Int)
    (decimalDigits : Nat) (isUnicode isExp : Bool) (pos0 : Position) :
    Token × TokState :=
  let finalValue : TokenValue :=
    if isExp then
      if decimalDigits ≠ 0 then
        TokenValue.num (value * (10 : Rat) ^ (exp * expSign))
      else TokenValue.int (intValue * 10 ^ exp.toNat)
    else if decimalDigits ≠ 0 then TokenValue.num value
    else TokenValue.int intValue
  (⟨TokenTypes.Number, pos0, getPosition s,
    if isUnicode then TokenValue.null else finalValue, isUnicode⟩, s)

/-- The decimal/float while-loop of `readNumber` (lines 132-178).  `c` is the
character at the cursor (kept in sync exactly as the source does); the tail
of the loop body (lines 175-177: `pos++`, `col++`, re-read `c`) is folded
into each branch's recursive call. -/
def readNumLoop (s : TokState) (c : Option Nat) (intValue : Int) (value : Rat)
    (exp expSign : Int) (decimalDigits : Nat) (isUnicode isExp : Bool)
    (pos0 : Position) : Token × TokState :=
  if h : s.pos < s.input.length then
    match c with
    | some cv =>
      if s.cc.isDigit cv then
        if 127 < cv then
          -- lines 136-138: non-ASCII digit
          readNumLoop { errorHere s Diagnostics.UnicodeDigit with
              pos := s.pos + 1, col := s.col + 1 }
            (charCodeAt s.input (s.pos + 1)) intValue value exp expSign
            decimalDigits true isExp pos0
        else if isExp then
          -- lines 140-142: double accumulation, each operation rounded
          readNumLoop { s with pos := s.pos + 1, col := s.col + 1 }
            (charCodeAt s.input (s.pos + 1)) intValue value
            (jsExpStep exp cv) expSign decimalDigits isUnicode
            isExp pos0
        else if decimalDigits ≠ 0 then
          -- lines 143-145
          readNumLoop { s with pos := s.pos + 1, col := s.col + 1 }
            (charCodeAt s.input (s.pos + 1)) intValue
            (value + ((cv : Rat) - 0x30) / (decimalDigits : Rat)) exp expSign
            (decimalDigits * 10) isUnicode isExp pos0
        else
          -- lines 147-148
          readNumLoop { s with pos := s.pos + 1, col := s.col + 1 }
            (charCodeAt s.input (s.pos + 1))
            (intValue * 10 + ((cv : Int) - 0x30)) value exp expSign
            decimalDigits isUnicode isExp pos0
      else if decimalDigits = 0 ∧ cv = 0x2e then
        -- lines 151-155: switch to fractional mode
        let s1 := if 9007199254740991 < intValue then
            pushError s Diagnostics.LossOfPrecision pos0 (getPosition s) else s
        readNumLoop { s1 with pos := s1.pos + 1, col := s1.col + 1 }
          (charCodeAt s.input (s.pos + 1)) intValue (intValue : Rat) exp expSign
          10 isUnicode isExp pos0
      else if isExp = false ∧ (cv ||| 0x20) = 0x65 then
        -- lines 156-171: exponent marker; the sign character is inspected
        if charCodeAt s.input (s.pos + 1) = some 0x2d then
          if decimalDigits = 0 then
            let s1 : TokState := { s with pos := s.pos + 1, col := s.col + 1 }
            let s2 := if 9007199254740991 < intValue then
                pushError s1 Diagnostics.LossOfPrecision pos0 (getPosition s1)
              else s1
            readNumLoop { s2 with pos := s2.pos + 1, col := s2.col + 1 }
              (charCodeAt s.input (s.pos + 2)) intValue (intValue : Rat) exp
              (-1) 10 isUnicode true pos0
          else
            readNumLoop { s with pos := s.pos + 2, col := s.col + 2 }
              (charCodeAt s.input (s.pos + 2)) intValue value exp (-1)
              decimalDigits isUnicode true pos0
        else if charCodeAt s.input (s.pos + 1) = some 0x2b then
          readNumLoop { s with pos := s.pos + 2, col := s.col + 2 }
            (charCodeAt s.input (s.pos + 2)) intValue value exp expSign
            decimalDigits isUnicode true pos0
        else
          -- any other character: `this.pos--` (line 170) cancels the tail's
          -- `pos++`, the column is incremented twice (lines 159, 176)
          readNumLoop { s with pos := s.pos + 1, col := s.col + 2 }
            (charCodeAt s.input (s.pos + 1)) intValue value exp expSign
            decimalDigits isUnicode true pos0
      else
        numFinish s intValue value exp expSign decimalDigits isUnicode isExp
          pos0
    | none =>
      numFinish s intValue value exp expSign decimalDigits isUnicode isExp pos0
  else numFinish s intValue value exp expSign decimalDigits isUnicode isExp pos0
termination_by s.input.length - s.pos
decreasing_by all_goals (first
  | omega
  | (simp +zetaDelta [pushError, errorHere, apply_ite TokState.pos,
      apply_ite TokState.input] at *; omega))

/-- `this.readNumber()` (lines 92-199). -/
def readNumber (s : TokState) : Token × TokState :=
  let pos0 := getPosition s
  let c := getChar s
  if c = some 0x30 ∧ orSP (peekChar s) = 0x78 then
    -- hexadecimal literal, lines 102-129; `this.pos += 2` does not touch col
    let s1 : TokState := { s with pos := s.pos + 2 }
    match getChar s1 with
    | some c1 =>
      if s1.cc.isHexDigit c1 then
        let r := readHexLoop s1 c1 0
        (⟨TokenTypes.HexNumber, pos0, getPosition r.2, TokenValue.int r.1,
          false⟩, r.2)
      else
        let s2 := errorHere s1 Diagnostics.ExpectedHexDigit
        (⟨TokenTypes.HexNumber, pos0, getPosition s2, TokenValue.null, true⟩,
          s2)
    | none =>
      let s2 := errorHere s1 Diagnostics.ExpectedHexDigit
      (⟨TokenTypes.HexNumber, pos0, getPosition s2, TokenValue.null, true⟩, s2)
  else
    readNumLoop s c 0 0 0 1 0 false false pos0

/-- The do-while loop of `readComment` (lines 294-303), with fuel: one unit
of fuel per body execution, `none` when the loop has not finished within the
given fuel.  `indexOf` returning `-1` makes `index = 0` (line 295), which is
what lets this loop run forever. -/
def readCommentLoop (s : TokState) (value : List Nat) :
    Nat → Option (List Nat × TokState)
  | 0 => none
  | fuel + 1 =>
    let index := match indexOfFrom s.input 0x0a s.pos with
      | some i => i + 1
      | none => 0
    let value1 := value ++ sliceJS s.input s.pos index
    let s1 : TokState := { s with pos := index, row := s.row + 1 }
    if s1.pos < s1.input.length ∧ getChar s1 = some 0x2f ∧
        peekChar s1 = some 0x2f then
      readCommentLoop s1 value1 fuel
    else some (value1, s1)

/-- `this.readComment()` (lines 290-306). -/
def readComment (s : TokState) (fuel : Nat) : Option (Token × TokState) :=
  let s0 := if s.allowComments then s
    else errorHere s Diagnostics.UnexpectedComment
  let pos0 := getPosition s0
  match readCommentLoop s0 [] fuel with
  | some (value, s1) =>
    let s2 : TokState := { s1 with col := 0 }
    some (⟨TokenTypes.Comment, pos0, getPosition s2, TokenValue.str value,
      false⟩, s2)
  | none => none

/-- `this.readEllipsis()` (lines 309-319). -/
def readEllipsis (s : TokState) : Token × TokState :=
  let pos0 := getPosition s
  let s1 : TokState := { s with pos := s.pos + 1, col := s.col + 1 }
  let s2 := if getChar s1 ≠ some 0x2e ∨ peekChar s1 ≠ some 0x2e then
      errorHere s1 Diagnostics.UnknownOperator
    else { s1 with pos := s1.pos + 2 }
  (⟨TokenTypes.Spread, pos0, getPosition s2, TokenValue.null, false⟩, s2)

/-- `this.getOneCharToken(tokenType)` (lines 326-331). -/
def getOneCharToken (s : TokState) (tokenType : TokenTypes) :
    Token × TokState :=
  let pos0 := getPosition s
  let s1 : TokState := { s with pos := s.pos + 1, col := s.col + 1 }
  (⟨tokenType, pos0, getPosition s1, TokenValue.null, false⟩, s1)

/-- `this.getTwoCharToken(tokenType)` (lines 337-342). -/
def getTwoCharToken (s : TokState) (tokenType : TokenTypes) :
    Token × TokState :=
  let pos0 := getPosition s
  let s1 : TokState := { s with pos := s.pos + 2, col := s.col + 2 }
  (⟨tokenType, pos0, getPosition s1, TokenValue.null, false⟩, s1)

/-- `this.getBooleanOp(tokenType, char)` (lines 349-360): on a mismatched
second character an `UnknownOperator` diagnostic is pushed and the inner
`pos++` is skipped, so the cursor only advances one position. -/
def getBooleanOp (s : TokState) (tokenType : TokenTypes) (char : Nat) :
    Token × TokState :=
  let pos0 := getPosition s
  let s1 := if peekChar s ≠ some char then
      errorHere s Diagnostics.UnknownOperator
    else { s with pos := s.pos + 1, col := s.col + 1 }
  let s2 : TokState := { s1 with pos := s1.pos + 1, col := s1.col + 1 }
  (⟨tokenType, pos0, getPosition s2, TokenValue.null, false⟩, s2)

/-- Wrap a produced token in the `Token?` result of `nextToken`. -/
def wrapTok (r : Token × TokState) : Option Token × TokState := (some r.1, r.2)

/-- `this.nextToken()` (lines 363-460).  The outer `Option` is the fuel
model: `none` means the computation did not finish within `fuel` steps (one
unit of fuel pays for one `nextToken` activation, and the remainder is handed
to `readComment`'s loop).  The inner `Option Token` is the JS return value
(`null` at end of input).  The self-recursion at line 458 advances the
cursor, so any fuel exceeding the input length is enough unless
`readComment` diverges. -/
def nextToken (s0 : TokState) : Nat → Option (Option Token × TokState)
  | 0 => none
  | fuel + 1 =>
    let s := skipWhitespace s0
    if s.input.length ≤ s.pos then some (none, s)
    else
      match getChar s with
      | some c =>
        if c = 0x27 then some (wrapTok (readString s))
        else if c = 0x24 then
          let s1 := if s.allowNewLineMarkers then s
            else errorHere s Diagnostics.UnexpectedNewLineMarker
          some (wrapTok (getOneCharToken s1 TokenTypes.NewLineMarker))
        else if c = 0x3b then some (wrapTok (getOneCharToken s TokenTypes.Semicolon))
        else if c = 0x2c then some (wrapTok (getOneCharToken s TokenTypes.Comma))
        else if c = 0x3a then some (wrapTok (getOneCharToken s TokenTypes.Colon))
        else if c = 0x7e then some (wrapTok (getOneCharToken s TokenTypes.Tilde))
        else if c = 0x21 then
          if peekChar s = some 0x3d then
            some (wrapTok (getTwoCharToken s TokenTypes.NotEquals))
          else some (wrapTok (getOneCharToken s TokenTypes.Not))
        else if c = 0x2e then some (wrapTok (readEllipsis s))
        else if c = 0x2f then
          if peekChar s = some 0x2f then
            match readComment s fuel with
            | some r => some (wrapTok r)
            | none => none
          else some (wrapTok (getOneCharToken s TokenTypes.Div))
        else if c = 0x2b then
          if peekChar s = some 0x3d then
            some (wrapTok (getTwoCharToken s TokenTypes.AddAssign))
          else some (wrapTok (getOneCharToken s TokenTypes.Add))
        else if c = 0x2d then
          if peekChar s = some 0x3e then
            some (wrapTok (getTwoCharToken s TokenTypes.Arrow))
          else some (wrapTok (getOneCharToken s TokenTypes.Sub))
        else if c = 0x3c then
          if peekChar s = some 0x3e then
            some (wrapTok (getTwoCharToken s TokenTypes.SwapAssign))
          else if peekChar s = some 0x3d then
            some (wrapTok (getTwoCharToken s TokenTypes.LtEq))
          else some (wrapTok (getOneCharToken s TokenTypes.Lt))
        else if c = 0x3e then
          if peekChar s = some 0x3d then
            some (wrapTok (getTwoCharToken s TokenTypes.GtEq))
          else some (wrapTok (getOneCharToken s TokenTypes.Gt))
        else if c = 0x3d then
          if peekChar s = some 0x3d then
            some (wrapTok (getTwoCharToken s TokenTypes.Equals))
          else some (wrapTok (getOneCharToken s TokenTypes.Assign))
        else if c = 0x5e then some (wrapTok (getOneCharToken s TokenTypes.Pow))
        else if c = 0x2a then some (wrapTok (getOneCharToken s TokenTypes.Mul))
        else if c = 0x25 then some (wrapTok (getOneCharToken s TokenTypes.Mod))
        else if c = 0x26 then some (wrapTok (getBooleanOp s TokenTypes.And 0x26))
        else if c = 0x7c then some (wrapTok (getBooleanOp s TokenTypes.Or 0x7c))
        else if c = 0x28 then some (wrapTok (getOneCharToken s TokenTypes.OpenParen))
        else if c = 0x29 then some (wrapTok (getOneCharToken s TokenTypes.CloseParen))
        else if c = 0x5b then some (wrapTok (getOneCharToken s TokenTypes.OpenBrack))
        else if c = 0x5d then some (wrapTok (getOneCharToken s TokenTypes.CloseBrack))
        else if c = 0x7b then some (wrapTok (getOneCharToken s TokenTypes.OpenBrace))
        else if c = 0x7d then some (wrapTok (getOneCharToken s TokenTypes.CloseBrace))
        else if s.cc.isDigit c then some (wrapTok (readNumber s))
        else if c = 0x5f || s.cc.isLetter c then some (wrapTok (readIdent s))
        else
          -- lines 455-458: unrecognized character recovery
          nextToken { errorHere s Diagnostics.UnexpectedToken with
            pos := s.pos + 1, col := s.col + 1 } fuel
      | none => some (none, s)

/-- Modelled from the spec: AST node shapes are produced by the external
parser (`Parser.js` is not among the sources); the spec lists the kind-tagged
variants consumed by Assignment Discovery
(`BinaryExpression{operator, lvalue, rvalue}`, `UnaryExpression{value}`,
`ParenthesisedExpression{value}`, `FunctionExpression{params}`,
`MapLiteral{params}`, `ListLiteral{params}`, `Variable{name}`,
`FunctionDeclaration{…}`), with all remaining kinds collapsed into
`OtherNode` since the walk never descends into them. -/
inductive Node where
  | BinaryExpression (operator : String) (lvalue rvalue : Node)
  | ParenthesisedExpression (value : Node)
  | UnaryExpression (value : Node)
  | FunctionExpression (params : List Node)
  | MapLiteral (params : List Node)
  | ListLiteral (params : List Node)
  | Variable (name : String)
  | FunctionDeclaration (params : List Node) (body : Node)
  | OtherNode

/-- Modelled from the spec: `resolveParenthesised` (from the external
`findScope.js`) "strips any chain of enclosing parenthesised-expression
wrappers". -/
def resolveParenthesised : Node → Node
  | Node.ParenthesisedExpression v => resolveParenthesised v
  | n => n

/-- The JS kind test `variable?.kind !== 'Variable'` of `findAssign`
line 12, as a Boolean discriminator. -/
def kindIsVariable : Node → Bool
  | Node.Variable _ => true
  | _ => false

mutual
/-- `findAssign(scope, names)` (lines 7-33 of the assignment-discovery
source); the JS mutable `names` array is threaded through and returned. -/
def findAssign : Node → List Node → List Node
  | n@(Node.BinaryExpression op l r), names =>
    if op = "=" ∨ op = "+=" ∨ op = "<>" then
      if kindIsVariable (resolveParenthesised l) then names
      else findAssign r (names ++ [n])
    else findAssign r (findAssign l names)
  | Node.ParenthesisedExpression v, names => findAssign v names
  | Node.UnaryExpression v, names => findAssign v names
  | Node.FunctionExpression ps, names => findAssignList ps names
  | Node.MapLiteral ps, names => findAssignList ps names
  | Node.ListLiteral ps, names => findAssignList ps names
  | _, names => names

/-- The `for (const param of scope.params)` loop of `findAssign`
(lines 28-30). -/
def findAssignList : List Node → List Node → List Node
  | [], names => names
  | p :: ps, names => findAssignList ps (findAssign p names)
end

/-- ASCII hexadecimal digit (the only code points the generated
`isHexDigit` classification accepts, per the spec's number grammar). -/
def isAsciiHexDigit (c : Nat) : Bool :=
  (0x30 ≤ c && c ≤ 0x39) || (0x41 ≤ c && c ≤ 0x46) || (0x61 ≤ c && c ≤ 0x66)

/-- ASCII decimal digit. -/
def isAsciiDigit (c : Nat) : Bool := 0x30 ≤ c && c ≤ 0x39

/-- The numeric value of an ASCII hex digit. -/
def hexDigitValue (c : Nat) : Nat :=
  if c ≤ 0x39 then c - 0x30 else if c ≤ 0x46 then c - 0x37 else c - 0x57

/-- Base-16 positional accumulation of a digit string (the spec's
`Σ di · 16^(n−i)` written as a left fold). -/
def hexListVal (ds : List Nat) : Int :=
  ds.foldl (fun a d => a * 16 + (hexDigitValue d : Int)) 0

/-- Base-10 positional accumulation of an ASCII digit string. -/
def digitsVal (ds : List Nat) : Nat :=
  ds.foldl (fun a d => a * 10 + (d - 0x30)) 0

/-- Frame relation on the diagnostic sinks: the errors sequence is only ever
appended to and the warnings sequence is untouched. -/
def SinkExtends (s t : TokState) : Prop :=
  t.warnings = s.warnings ∧ ∃ ds, t.errors = s.errors ++ ds

/-- A concrete classification bundle restricted to ASCII (the generated
Unicode tables agree with it on every code point below 0x80 except that they
also accept further letters, digits and whitespace above).  Used to
instantiate witnesses. -/
def asciiCC : CharClass where
  isLetter c := (0x41 ≤ c && c ≤ 0x5a) || (0x61 ≤ c && c ≤ 0x7a)
  isWhitespace c := c = 0x20 || (0x09 ≤ c && c ≤ 0x0d)
  isDigit c := 0x30 ≤ c && c ≤ 0x39
  isHexDigit c := isAsciiHexDigit c
  isConstant v := v = [0x70, 0x69]

/-- The Boolean identifier-character test of `readIdent`'s loop. -/
def isIdentChar (cc : CharClass) (c : Nat) : Bool :=
  cc.isLetter c || decide (c = 0x5f) || cc.isDigit c

/-- End of the identifier run read by `readIdent`: the first character plus
the maximal following run of letters, underscores and digits. -/
def identRunEnd (s : TokState) : Nat :=
  s.pos + 1 +
    ((s.input.drop (s.pos + 1)).takeWhile (isIdentChar s.cc)).length

/-- Index of the first non-whitespace character after the identifier run
(the look-ahead position used for classification). -/
def identLookahead (s : TokState) : Nat :=
  identRunEnd s +
    ((s.input.drop (identRunEnd s)).takeWhile s.cc.isWhitespace).length

/-! ## Shared lemmas about the embedding -/

theorem charCodeAt_lt {l : List Nat} {i c : Nat} (h : charCodeAt l i = some c) :
    i < l.length := by
  rw [charCodeAt, List.getElem?_eq_some] at h
  exact h.1

theorem charCodeAt_of_drop {l : List Nat} {p c : Nat} {t : List Nat}
    (h : l.drop p = c :: t) : charCodeAt l p = some c := by
  have h0 : (l.drop p)[0]? = some c := by rw [h]; simp
  rwa [List.getElem?_drop, Nat.add_zero] at h0

theorem drop_succ_of_drop_cons {l : List Nat} {p c : Nat} {t : List Nat}
    (h : l.drop p = c :: t) : l.drop (p + 1) = t := by
  have h1 : (l.drop p).drop 1 = t := by rw [h]; simp
  rwa [List.drop_drop] at h1

theorem length_of_drop_cons {l : List Nat} {p c : Nat} {t : List Nat}
    (h : l.drop p = c :: t) : l.length = p + 1 + t.length := by
  have hp : p < l.length := by
    by_contra hP
    rw [List.drop_of_length_le (by omega)] at h
    exact List.noConfusion h
  have := congrArg List.length h
  simp [List.length_drop] at this
  omega

/-! ## Loop characterization lemmas -/

theorem readStringLoop_null_imp_err (pos0 : Position) (s : TokState)
    (start : Nat) (value : List Nat) (c : Option Nat) :
    (readStringLoop pos0 s start value c).1.value = TokenValue.null →
    (readStringLoop pos0 s start value c).1.hasError = true := by
  induction s, start, value, c using readStringLoop.induct pos0 with
  | _ =>
    rw [readStringLoop.eq_def]
    simp only [*, ite_true, ite_false, dite_true, dite_false] <;>
      first
        | rfl
        | (intro _; rfl)
        | assumption
        | simp_all +zetaDelta

theorem numFinish_null_iff (s : TokState) (intValue : Int) (value : Rat)
    (exp expSign : Int) (decimalDigits : Nat) (isUnicode isExp : Bool)
    (pos0 : Position) :
    ((numFinish s intValue value exp expSign decimalDigits isUnicode isExp
        pos0).1.value = TokenValue.null ↔
      (numFinish s intValue value exp expSign decimalDigits isUnicode isExp
        pos0).1.hasError = true) := by
  rw [numFinish]
  cases isUnicode <;> cases isExp <;> by_cases hd : decimalDigits ≠ 0 <;>
    simp_all

theorem readNumLoop_null_iff (s : TokState) (c : Option Nat) (intValue : Int)
    (value : Rat) (exp expSign : Int) (decimalDigits : Nat)
    (isUnicode isExp : Bool) (pos0 : Position) :
    ((readNumLoop s c intValue value exp expSign decimalDigits isUnicode isExp
        pos0).1.value = TokenValue.null ↔
      (readNumLoop s c intValue value exp expSign decimalDigits isUnicode isExp
        pos0).1.hasError = true) := by
  induction s, c, intValue, value, exp, expSign, decimalDigits, isUnicode,
    isExp, pos0 using readNumLoop.induct with
  | _ =>
    rw [readNumLoop.eq_def]
    simp only [*, ite_true, ite_false, dite_true, dite_false] <;>
      first
        | assumption
        | (exact numFinish_null_iff ..)
        | (intro _; rfl)
        | simp_all +zetaDelta [numFinish_null_iff]

theorem readNumber_null_iff (s : TokState) :
    ((readNumber s).1.value = TokenValue.null ↔
      (readNumber s).1.hasError = true) := by
  rw [readNumber]
  by_cases h : (getChar s = some 0x30 ∧ orSP (peekChar s) = 0x78)
  · simp only [h, ite_true]
    cases hgc : getChar { s with pos := s.pos + 2 } with
    | some c1 =>
      by_cases hh : s.cc.isHexDigit c1 <;> simp [hgc, hh]
    | none => simp [hgc]
  · simp only [h, ite_false]
    exact readNumLoop_null_iff ..

theorem readString_null_imp_err (s : TokState) :
    (readString s).1.value = TokenValue.null →
    (readString s).1.hasError = true := by
  rw [readString]
  apply readStringLoop_null_imp_err

theorem skipWhitespace_nonws {s : TokState} {c : Nat} (h : getChar s = some c)
    (hw : s.cc.isWhitespace c = false) : skipWhitespace s = s := by
  have hlt : s.pos < s.input.length := charCodeAt_lt h
  rw [skipWhitespace, dif_pos hlt, h]
  simp [hw]

/-! ## Claim C1 -/

theorem readCommentLoop_no_newline (fuel : Nat) :
    ∀ (s : TokState) (value : List Nat), s.input = [0x2f, 0x2f] → s.pos = 0 →
    readCommentLoop s value fuel = none := by
  induction fuel with
  | zero => intro s value _ _; rfl
  | succ n ih =>
    intro s value hin hpos
    rw [readCommentLoop]
    have hidx : indexOfFrom s.input 0x0a s.pos = none := by
      rw [hin, hpos]; decide
    rw [hidx]
    simp only []
    rw [if_pos]
    · exact ih _ _ (by simp [hin]) (by simp)
    · refine ⟨by simp [hin, hpos], ?_, ?_⟩ <;>
        simp [getChar, peekChar, charCodeAt, hin, hpos]

/-- Claim C1 (the claim says every `nextToken` call terminates on every
input; the code violates it): on the input `"//"` — a comment that reaches
end of input with no trailing newline — `readComment`'s loop never
finishes, because `indexOf('\n', pos) + 1` is `0` when there is no newline
and the cursor is reset to the start of the line forever.  In the fuel
model, `nextToken` exhausts any amount of fuel. -/
theorem c1_comment_no_newline_diverges (fuel : Nat) :
    nextToken (mkTokenizer asciiCC [0x2f, 0x2f] true false [] []) fuel =
      none := by
  cases fuel with
  | zero => rfl
  | succ n =>
    rw [nextToken]
    have hsw : skipWhitespace (mkTokenizer asciiCC [0x2f, 0x2f] true false []
        []) = mkTokenizer asciiCC [0x2f, 0x2f] true false [] [] := by
      rw [skipWhitespace]
      simp [mkTokenizer, getChar, charCodeAt, asciiCC]
    rw [hsw]
    simp only [mkTokenizer, getChar, peekChar, charCodeAt]
    norm_num
    rw [readComment]
    simp only []
    rw [readCommentLoop_no_newline n _ [] rfl rfl]

/-! ## Claim C2 -/

/-- Claim C2 (corrected): for `Number` and `HexNumber` tokens the value is
`none` exactly when the error flag is set; for `String` tokens a `none`
value implies the error flag, but the converse fails — a string literal
that reaches end of input immediately after a backslash keeps the decoded
text as its value while still setting the error flag (see the
counterexample). -/
theorem c2_value_none_iff_error_amended (s t : TokState) :
    ((readNumber s).1.value = TokenValue.null ↔
      (readNumber s).1.hasError = true)
    ∧ ((readString t).1.value = TokenValue.null →
      (readString t).1.hasError = true) :=
  ⟨readNumber_null_iff s, readString_null_imp_err t⟩

/-- Witness for claim C2: the unterminated string `"'a"` yields an
error-flagged token (its value is `none`). -/
theorem c2_value_none_iff_error_witness :
    (readString (mkTokenizer asciiCC [0x27, 0x61] true false [] [])).1.hasError
      = true :=
  (c2_value_none_iff_error_amended (mkTokenizer asciiCC [] true false [] [])
    (mkTokenizer asciiCC [0x27, 0x61] true false [] [])).2
    (by simp [readString, readStringLoop, mkTokenizer, getChar, charCodeAt,
      getPosition, sliceJS, errorHere, pushError])

/-- Counterexample to claim C2 as stated: on `"'a\"` (end of input right
after a backslash) the `String` token has the error flag set but its value
is the decoded prefix `"a"`, not `none`. -/
theorem c2_value_none_iff_error_counterexample :
    (match nextToken (mkTokenizer asciiCC [0x27, 0x61, 0x5c] true false [] [])
        2 with
     | some (some t, _) => t.hasError = true ∧ t.value ≠ TokenValue.null
     | _ => False) := by
  simp [nextToken, skipWhitespace, readString, readStringLoop, mkTokenizer,
    getChar, charCodeAt, getPosition, sliceJS, errorHere, pushError, asciiCC,
    wrapTok]

/-! ## Claim C3 -/

/-- Claim C3 (the claim says `start.offset ≤ end.offset` for every token;
the code violates it for Comment tokens): on `"a //b"` the second
`nextToken` call returns a Comment token whose end offset `0` is smaller
than its start offset `2`, because `readComment` sets the cursor to
`indexOf('\n') + 1 = 0` when the comment has no trailing newline. -/
theorem c3_comment_end_before_start :
    (match nextToken (mkTokenizer asciiCC [0x61, 0x20, 0x2f, 0x2f, 0x62] true
        false [] []) 2 with
     | some (some _, s1) =>
       match nextToken s1 2 with
       | some (some t, _) =>
         t.type = TokenTypes.Comment ∧ t.stop.pos < t.start.pos
       | _ => False
     | _ => False) := by
  have h1 : nextToken (mkTokenizer asciiCC [0x61, 0x20, 0x2f, 0x2f, 0x62] true
      false [] []) 2 = some (some ⟨TokenTypes.Variable, ⟨0, 0, 0⟩, ⟨2, 0, 2⟩,
        TokenValue.str [0x61], false⟩,
      { cc := asciiCC, input := [0x61, 0x20, 0x2f, 0x2f, 0x62],
        allowComments := true, allowNewLineMarkers := false, pos := 2, row := 0,
        col := 2, errors := [], warnings := [] }) := by
    rw [nextToken]
    simp [skipWhitespace, mkTokenizer, getChar, peekChar, charCodeAt, asciiCC,
      readIdent, readIdentLoop, sliceJS, getPosition, wrapTok, isAsciiHexDigit]
  have h2 : nextToken { cc := asciiCC, input := [0x61, 0x20, 0x2f, 0x2f, 0x62],
                        allowComments := true, allowNewLineMarkers := false,
                        pos := 2, row := 0, col := 2, errors := [],
                        warnings := [] } 2 = some (some ⟨TokenTypes.Comment,
        ⟨2, 0, 2⟩, ⟨0, 1, 0⟩, TokenValue.str [], false⟩,
      { cc := asciiCC, input := [0x61, 0x20, 0x2f, 0x2f, 0x62],
        allowComments := true, allowNewLineMarkers := false, pos := 0, row := 1,
        col := 0, errors := [], warnings := [] }) := by
    rw [nextToken]
    simp [skipWhitespace, getChar, peekChar, charCodeAt, asciiCC, readComment,
      readCommentLoop, indexOfFrom, sliceJS, getPosition, wrapTok]
  rw [h1]
  simp only [h2]
  exact ⟨trivial, by omega⟩

/-! ## Claim C5 -/

/-- Claim C5 (corrected): when `nextToken` reads a `&` (or `|`) whose next
character is not another `&` (or `|`), exactly one `UnknownOperator`
diagnostic is recorded and an `And` (or `Or`) token is still emitted — but
the cursor advances past only the first character (one code unit), not
two: the matched-branch `pos++` is skipped on a mismatch. -/
theorem c5_boolean_op_mismatch (s : TokState) (fuel : Nat) (c : Nat)
    (t : TokenTypes)
    (hc : c = 0x26 ∧ t = TokenTypes.And ∨ c = 0x7c ∧ t = TokenTypes.Or)
    (hch : getChar s = some c) (hw : s.cc.isWhitespace c = false)
    (hpeek : peekChar s ≠ some c) :
    nextToken s (fuel + 1) =
      some (some ⟨t, getPosition s, ⟨s.pos + 1, s.row, s.col + 1⟩,
        TokenValue.null, false⟩,
        { pushError s Diagnostics.UnknownOperator (getPosition s)
            (getPosition s) with pos := s.pos + 1, col := s.col + 1 }) := by
  have hlt : s.pos < s.input.length := charCodeAt_lt hch
  rw [nextToken]
  rw [skipWhitespace_nonws hch hw]
  rcases hc with ⟨rfl, rfl⟩ | ⟨rfl, rfl⟩ <;>
    simp [Nat.not_le.mpr hlt, hch, getBooleanOp, hpeek, getPosition,
      errorHere, pushError, wrapTok]

/-- Witness for claim C5: on `"&x"` the `And` token is emitted with one
`UnknownOperator` diagnostic and the cursor at offset 1. -/
theorem c5_boolean_op_mismatch_witness :
    nextToken (mkTokenizer asciiCC [0x26, 0x78] true false [] []) 2 =
      some (some ⟨TokenTypes.And, ⟨0, 0, 0⟩, ⟨1, 0, 1⟩, TokenValue.null,
        false⟩,
        { cc := asciiCC, input := [0x26, 0x78], allowComments := true,
          allowNewLineMarkers := false, pos := 1, row := 0, col := 1,
          errors := [⟨Diagnostics.UnknownOperator, ⟨0, 0, 0⟩, ⟨0, 0, 0⟩⟩],
          warnings := [] }) := by
  rw [c5_boolean_op_mismatch _ 1 0x26 TokenTypes.And (Or.inl ⟨rfl, rfl⟩)
    (by decide) (by decide) (by decide)]
  rfl

/-- Counterexample to claim C5 as stated: the claim says the cursor
advances past both characters (two code units); on `"&x"` the scan state
after the `And` token has `pos = 1`, not `2` — the `x` is not consumed. -/
theorem c5_boolean_op_mismatch_counterexample :
    (match nextToken (mkTokenizer asciiCC [0x26, 0x78] true false [] []) 2 with
     | some (some t, s1) =>
       t.type = TokenTypes.And ∧ t.stop.pos = 1 ∧ s1.pos = 1 ∧
         s1.errors = [⟨Diagnostics.UnknownOperator, ⟨0, 0, 0⟩, ⟨0, 0, 0⟩⟩]
     | _ => False) := by
  simp [nextToken, skipWhitespace, mkTokenizer, getChar, peekChar, charCodeAt,
    asciiCC, getBooleanOp, errorHere, pushError, getPosition, wrapTok]

/-! ## Claim C8 -/

/-- Claim C8: in the Assignment Discovery walk, a `BinaryExpression` whose
operator is `=`, `+=` or `<>` is appended to the result exactly when its
parenthesis-unwrapped lvalue is not a plain `Variable` node, in which case
only its rvalue is traversed further; when the unwrapped lvalue is a
`Variable`, the node is neither recorded nor are its operands traversed. -/
theorem c8_find_assign_compound_lvalue (op : String) (l r : Node)
    (names : List Node) (hop : op = "=" ∨ op = "+=" ∨ op = "<>") :
    (kindIsVariable (resolveParenthesised l) = true →
      findAssign (Node.BinaryExpression op l r) names = names)
    ∧ (kindIsVariable (resolveParenthesised l) = false →
      findAssign (Node.BinaryExpression op l r) names =
        findAssign r (names ++ [Node.BinaryExpression op l r])) := by
  constructor <;> intro hv <;> simp [findAssign, hop, hv]

/-- Witness for claim C8: the destructuring assignment `[a, b] = f()`
(compound lvalue) is recorded, while `x = 1` (plain variable lvalue) is
not. -/
theorem c8_find_assign_compound_lvalue_witness :
    findAssign (Node.BinaryExpression "="
        (Node.ListLiteral [Node.Variable "a", Node.Variable "b"])
        Node.OtherNode) [] =
      [Node.BinaryExpression "="
        (Node.ListLiteral [Node.Variable "a", Node.Variable "b"])
        Node.OtherNode]
    ∧ findAssign (Node.BinaryExpression "=" (Node.Variable "x")
        Node.OtherNode) [] = [] := by
  constructor
  · rw [(c8_find_assign_compound_lvalue "="
      (Node.ListLiteral [Node.Variable "a", Node.Variable "b"])
      Node.OtherNode [] (Or.inl rfl)).2 (by decide)]
    rfl
  · rw [(c8_find_assign_compound_lvalue "=" (Node.Variable "x")
      Node.OtherNode [] (Or.inl rfl)).1 (by decide)]

/-! ## Claim C6 -/

theorem hexVal_ascii (d : Nat) (h : isAsciiHexDigit d = true) :
    hexVal d = (hexDigitValue d : Int) := by
  rw [isAsciiHexDigit] at h
  simp only [Bool.or_eq_true, Bool.and_eq_true, decide_eq_true_eq] at h
  rw [hexVal, hexDigitValue]
  rcases h with (⟨h1, h2⟩ | ⟨h1, h2⟩) | ⟨h1, h2⟩
  · rw [if_pos (by omega), if_pos (by omega)]
    omega
  · have hor : d ||| 0x20 = d + 0x20 := by interval_cases d <;> rfl
    rw [if_neg (by omega), if_neg (by omega), if_pos (by omega), hor]
    omega
  · have hor : d ||| 0x20 = d := by interval_cases d <;> rfl
    rw [if_neg (by omega), if_neg (by omega), if_neg (by omega), hor]
    omega

theorem foldl_hex_shift (ds : List Nat) : ∀ (a : Int),
    ds.foldl (fun a x => a * 16 + (hexDigitValue x : Int)) a =
      a * 16 ^ ds.length + hexListVal ds := by
  induction ds with
  | nil => intro a; simp [hexListVal]
  | cons d ds ih =>
    intro a
    rw [hexListVal]
    simp only [List.foldl_cons, List.length_cons]
    rw [ih, ih]
    push_cast
    ring

/-- Positional reading of the accumulator: each digit contributes its value
times `16 ^ (number of digits after it)`. -/
theorem hexListVal_cons (d : Nat) (ds : List Nat) :
    hexListVal (d :: ds) =
      (hexDigitValue d : Int) * 16 ^ ds.length + hexListVal ds := by
  rw [hexListVal, List.foldl_cons]
  have := foldl_hex_shift ds ((0 : Int) * 16 + (hexDigitValue d : Int))
  rw [this]
  ring

theorem readHexLoop_spec (ds : List Nat) : ∀ (s : TokState) (d : Nat)
    (iv : Int) (rest : List Nat),
    s.input.drop s.pos = d :: (ds ++ rest) →
    isAsciiHexDigit d = true →
    (∀ x ∈ ds, isAsciiHexDigit x = true ∧ s.cc.isHexDigit x = true) →
    (∀ r, rest.head? = some r → s.cc.isHexDigit r = false) →
    readHexLoop s d iv =
      ((d :: ds).foldl (fun a x => a * 16 + (hexDigitValue x : Int)) iv,
        { s with pos := s.pos + (1 + ds.length), col := s.col + (1 + ds.length) }) := by
  induction ds with
  | nil =>
    intro s d iv rest hdrop hd _ hrest
    have hlen : s.input.length = s.pos + 1 + rest.length :=
      length_of_drop_cons (by simpa using hdrop)
    rw [readHexLoop, hexVal_ascii d hd]
    cases rest with
    | nil =>
      rw [dif_neg (by simp [hlen])]
      try simp
    | cons r rest' =>
      have hr : s.cc.isHexDigit r = false := hrest r rfl
      have hgc : getChar { s with pos := s.pos + 1, col := s.col + 1 } =
          some r := by
        rw [getChar]
        exact charCodeAt_of_drop (by simpa using drop_succ_of_drop_cons hdrop)
      rw [dif_pos (by simp [hlen] <;> omega)]
      rw [hgc]
      simp [hr]
  | cons x ds' ih =>
    intro s d iv rest hdrop hd hds hrest
    have hlen : s.input.length = s.pos + 1 + (ds'.length + 1 + rest.length) :=
      by have := length_of_drop_cons hdrop; simp at this; omega
    have hdrop1 : s.input.drop (s.pos + 1) = x :: (ds' ++ rest) := by
      simpa using drop_succ_of_drop_cons hdrop
    have hgc : getChar { s with pos := s.pos + 1, col := s.col + 1 } =
        some x := by
      rw [getChar]
      exact charCodeAt_of_drop hdrop1
    rw [readHexLoop, hexVal_ascii d hd]
    rw [dif_pos (by simp <;> omega)]
    simp only [hgc, (hds x (List.mem_cons_self x ds')).2, eq_self_iff_true,
      if_true]
    rw [ih { s with pos := s.pos + 1, col := s.col + 1 } x
      (iv * 16 + (hexDigitValue d : Int)) rest hdrop1
      (hds x (List.mem_cons_self x ds')).1
      (fun y hy => hds y (List.mem_cons_of_mem _ hy)) hrest]
    simp only [List.foldl_cons]
    simp [TokState.mk.injEq]
    omega

/-- Claim C6: scanning `0x` (or `0X`) followed by a non-empty run of hex
digits yields a `HexNumber` token whose value is the base-16 positional
accumulation of the digit run, with no error flag; scanning `0x` followed
by a non-hex-digit (or end of input) yields a `HexNumber` token with no
value, the error flag set, and exactly one `ExpectedHexDigit` diagnostic
appended. -/
theorem c6_hex_literal :
    (∀ (s : TokState) (x d0 : Nat) (ds rest : List Nat),
      (x = 0x78 ∨ x = 0x58) →
      s.input.drop s.pos = 0x30 :: x :: d0 :: (ds ++ rest) →
      isAsciiHexDigit d0 = true ∧ s.cc.isHexDigit d0 = true →
      (∀ d ∈ ds, isAsciiHexDigit d = true ∧ s.cc.isHexDigit d = true) →
      (∀ r, rest.head? = some r → s.cc.isHexDigit r = false) →
      readNumber s =
        (⟨TokenTypes.HexNumber, getPosition s,
          ⟨s.pos + 2 + (1 + ds.length), s.row, s.col + (1 + ds.length)⟩,
          TokenValue.int (hexListVal (d0 :: ds)), false⟩,
         { s with pos := s.pos + 2 + (1 + ds.length), col := s.col + (1 + ds.length) }))
    ∧ (∀ (s : TokState) (x : Nat),
      (x = 0x78 ∨ x = 0x58) →
      charCodeAt s.input s.pos = some 0x30 →
      charCodeAt s.input (s.pos + 1) = some x →
      (∀ r, charCodeAt s.input (s.pos + 2) = some r →
        s.cc.isHexDigit r = false) →
      readNumber s =
        (⟨TokenTypes.HexNumber, getPosition s, ⟨s.pos + 2, s.row, s.col⟩,
          TokenValue.null, true⟩,
         { s with pos := s.pos + 2, errors := s.errors ++
            [⟨Diagnostics.ExpectedHexDigit, ⟨s.pos + 2, s.row, s.col⟩,
              ⟨s.pos + 2, s.row, s.col⟩⟩] })) := by
  constructor
  · intro s x d0 ds rest hx hdrop hd0 hds hrest
    have h30 : charCodeAt s.input s.pos = some 0x30 := charCodeAt_of_drop hdrop
    have hdropx : s.input.drop (s.pos + 1) = x :: d0 :: (ds ++ rest) :=
      drop_succ_of_drop_cons hdrop
    have hx1 : charCodeAt s.input (s.pos + 1) = some x :=
      charCodeAt_of_drop hdropx
    have hdropd : s.input.drop (s.pos + 1 + 1) = d0 :: (ds ++ rest) :=
      drop_succ_of_drop_cons hdropx
    have hgc2 : getChar { s with pos := s.pos + 2 } = some d0 := by
      rw [getChar]
      exact charCodeAt_of_drop (by simpa [Nat.add_assoc] using hdropd)
    rw [readNumber]
    rw [if_pos ⟨h30, by rw [orSP, peekChar, hx1]
      <;> rcases hx with rfl | rfl <;> decide⟩]
    simp only [hgc2, hd0.2, eq_self_iff_true, if_true]
    rw [readHexLoop_spec ds { s with pos := s.pos + 2 } d0 0 rest
      (by simpa [Nat.add_assoc] using hdropd) hd0.1 hds hrest]
    simp [getPosition, TokState.mk.injEq, hexListVal] <;> omega
  · intro s x hx h30 hx1 hnone
    rw [readNumber]
    rw [if_pos ⟨h30, by rw [orSP, peekChar, hx1]
      <;> rcases hx with rfl | rfl <;> decide⟩]
    cases hc : getChar { s with pos := s.pos + 2 } with
    | some c1 =>
      have : s.cc.isHexDigit c1 = false := hnone c1 (by simpa using hc)
      simp only [hc, this, Bool.false_eq_true, if_false]
      simp [errorHere, pushError, getPosition]
    | none =>
      simp only [hc]
      simp [errorHere, pushError, getPosition]

/-- Witness for C6: `"0x1F"` produces the integer 31 with no diagnostic,
and `"0x"` produces an errored token with an `ExpectedHexDigit`
diagnostic. -/
theorem c6_hex_literal_witness :
    readNumber (mkTokenizer asciiCC [0x30, 0x78, 0x31, 0x46] true false [] [])
      = (⟨TokenTypes.HexNumber, ⟨0, 0, 0⟩, ⟨4, 0, 2⟩, TokenValue.int 31,
          false⟩,
        { cc := asciiCC, input := [0x30, 0x78, 0x31, 0x46],
          allowComments := true, allowNewLineMarkers := false, pos := 4,
          row := 0, col := 2, errors := [], warnings := [] })
    ∧ readNumber (mkTokenizer asciiCC [0x30, 0x78] true false [] [])
      = (⟨TokenTypes.HexNumber, ⟨0, 0, 0⟩, ⟨2, 0, 0⟩, TokenValue.null, true⟩,
        { cc := asciiCC, input := [0x30, 0x78], allowComments := true,
          allowNewLineMarkers := false, pos := 2, row := 0, col := 0,
          errors := [⟨Diagnostics.ExpectedHexDigit, ⟨2, 0, 0⟩, ⟨2, 0, 0⟩⟩],
          warnings := [] }) := by
  constructor
  · rw [c6_hex_literal.1 (mkTokenizer asciiCC [0x30, 0x78, 0x31, 0x46] true
      false [] []) 0x78 0x31 [0x46] [] (Or.inl rfl) (by decide)
      (by decide) (by decide) (by decide)]
    rfl
  · rw [c6_hex_literal.2 (mkTokenizer asciiCC [0x30, 0x78] true false [] [])
      0x78 (Or.inl rfl) (by decide) (by decide) (by decide)]
    rfl

/-! ## Claim C9 -/

theorem drop_cons_of_charCodeAt {l : List Nat} {p c : Nat}
    (h : charCodeAt l p = some c) : l.drop p = c :: l.drop (p + 1) := by
  rw [charCodeAt] at h
  rw [List.drop_eq_getElem_cons (charCodeAt_lt h)]
  congr 1
  rw [List.getElem?_eq_some] at h
  exact h.2

theorem drop_nil_of_charCodeAt_none {l : List Nat} {p : Nat}
    (h : charCodeAt l p = none) : l.drop p = [] := by
  rw [charCodeAt, List.getElem?_eq_none_iff] at h
  exact List.drop_of_length_le h

theorem readIdentLoop_spec (s : TokState) :
    readIdentLoop s = { s with
      pos := s.pos +
        ((s.input.drop s.pos).takeWhile (isIdentChar s.cc)).length,
      col := s.col +
        ((s.input.drop s.pos).takeWhile (isIdentChar s.cc)).length } := by
  induction s using readIdentLoop.induct with
  | case1 s hlt c hgc hcond ih =>
    have hdrop := drop_cons_of_charCodeAt hgc
    rw [readIdentLoop, dif_pos hlt]
    simp only [hgc, hcond, ite_true, if_true, eq_self_iff_true]
    rw [ih, hdrop]
    rw [List.takeWhile_cons_of_pos (by simpa [isIdentChar] using hcond)]
    simp [TokState.mk.injEq] <;> omega
  | case2 s hlt c hgc hcond =>
    have hdrop := drop_cons_of_charCodeAt hgc
    rw [readIdentLoop, dif_pos hlt]
    simp only [hgc]
    rw [if_neg hcond, hdrop]
    rw [List.takeWhile_cons_of_neg (by simpa [isIdentChar] using hcond)]
    rfl
  | case3 s hlt hgc =>
    rw [readIdentLoop, dif_pos hlt]
    simp only [hgc]
    rw [drop_nil_of_charCodeAt_none hgc]
    rfl
  | case4 s hlt =>
    rw [readIdentLoop, dif_neg hlt]
    rw [List.drop_of_length_le (by omega)]
    rfl

theorem skipWhitespace_spec (s : TokState) :
    ∃ r c2, skipWhitespace s = { s with
      pos := s.pos + ((s.input.drop s.pos).takeWhile s.cc.isWhitespace).length,
      row := r, col := c2 } := by
  induction s using skipWhitespace.induct with
  | case1 s hlt hgc hws ih =>
    obtain ⟨r, c2, ih⟩ := ih
    have hdrop := drop_cons_of_charCodeAt hgc
    refine ⟨r, c2, ?_⟩
    rw [skipWhitespace, dif_pos hlt]
    simp only [hgc, hws, ite_true, if_true, eq_self_iff_true]
    rw [ih, hdrop, List.takeWhile_cons_of_pos (by simpa using hws)]
    simp [TokState.mk.injEq] <;> omega
  | case2 s hlt c hgc hws hnl ih =>
    obtain ⟨r, c2, ih⟩ := ih
    have hdrop := drop_cons_of_charCodeAt hgc
    refine ⟨r, c2, ?_⟩
    rw [skipWhitespace, dif_pos hlt]
    simp only [hgc, hws, ite_true, if_true, eq_self_iff_true]
    rw [if_neg hnl]
    rw [ih, hdrop, List.takeWhile_cons_of_pos (by simpa using hws)]
    simp [TokState.mk.injEq] <;> omega
  | case3 s hlt c hgc hws =>
    refine ⟨s.row, s.col, ?_⟩
    have hdrop := drop_cons_of_charCodeAt hgc
    rw [skipWhitespace, dif_pos hlt]
    simp only [hgc]
    rw [if_neg (by simp [hws]), hdrop]
    rw [List.takeWhile_cons_of_neg (by simp [hws])]
    rfl
  | case4 s hlt hgc =>
    refine ⟨s.row, s.col, ?_⟩
    rw [skipWhitespace, dif_pos hlt]
    simp only [hgc]
    rw [drop_nil_of_charCodeAt_none hgc]
    rfl
  | case5 s hlt =>
    refine ⟨s.row, s.col, ?_⟩
    rw [skipWhitespace, dif_neg hlt]
    rw [List.drop_of_length_le (by omega)]
    rfl

theorem readIdent_spec (s : TokState) : ∃ r c2,
    readIdent s =
      (⟨(if charCodeAt s.input (identLookahead s) = some 0x28 then
            TokenTypes.Function
          else if s.cc.isConstant (sliceJS s.input s.pos (identRunEnd s)) then
            TokenTypes.Constant
          else TokenTypes.Variable),
        getPosition s, ⟨identLookahead s, r, c2⟩,
        TokenValue.str (sliceJS s.input s.pos (identRunEnd s)), false⟩,
       { s with pos := identLookahead s, row := r, col := c2 }) := by
  have h1 := readIdentLoop_spec { s with pos := s.pos + 1, col := s.col + 1 }
  obtain ⟨r, c2, h2⟩ := skipWhitespace_spec
    (readIdentLoop { s with pos := s.pos + 1, col := s.col + 1 })
  rw [h1] at h2
  refine ⟨r, c2, ?_⟩
  rw [readIdent, h1, h2]
  simp only [identLookahead, identRunEnd, getChar, getPosition, sliceJS]

/-- Claim C9: after an identifier run (first character plus letters,
underscores and digits), `readIdent` skips following whitespace without
extending the token text, and classifies the token as `Function` exactly
when the next non-whitespace character is `(`, otherwise as `Constant`
exactly when the identifier text is in the reserved-constant set,
otherwise as `Variable`. -/
theorem c9_ident_classification (s : TokState) :
    (readIdent s).1.value =
      TokenValue.str (sliceJS s.input s.pos (identRunEnd s))
    ∧ ((readIdent s).1.type = TokenTypes.Function ↔
        charCodeAt s.input (identLookahead s) = some 0x28)
    ∧ ((readIdent s).1.type = TokenTypes.Constant ↔
        charCodeAt s.input (identLookahead s) ≠ some 0x28 ∧
        s.cc.isConstant (sliceJS s.input s.pos (identRunEnd s)) = true)
    ∧ ((readIdent s).1.type = TokenTypes.Variable ↔
        charCodeAt s.input (identLookahead s) ≠ some 0x28 ∧
        s.cc.isConstant (sliceJS s.input s.pos (identRunEnd s)) = false) := by
  obtain ⟨r, c2, h⟩ := readIdent_spec s
  rw [h]
  by_cases hp : charCodeAt s.input (identLookahead s) = some 0x28 <;>
    by_cases hc : s.cc.isConstant (sliceJS s.input s.pos (identRunEnd s)) <;>
    simp [hp, hc]

/-- Witness for C9: `"foo ("` classifies as `Function` (whitespace skipped
before the paren), `"pi"` classifies as `Constant`, and `"foo"`
classifies as `Variable`. -/
theorem c9_ident_classification_witness :
    (readIdent (mkTokenizer asciiCC [0x66, 0x6f, 0x6f, 0x20, 0x28] true false
      [] [])).1.type = TokenTypes.Function
    ∧ (readIdent (mkTokenizer asciiCC [0x70, 0x69] true false [] [])).1.type =
      TokenTypes.Constant :=
  ⟨(c9_ident_classification _).2.1.mpr (by decide),
   (c9_ident_classification _).2.2.1.mpr ⟨by decide, by decide⟩⟩

/-! ## Claim C4 -/

theorem sliceJS_of_drop {l : List Nat} {P rest : List Nat} {a : Nat}
    (h : l.drop a = P ++ rest) : sliceJS l a (a + P.length) = P := by
  rw [sliceJS, List.drop_take]
  rw [h]
  simpa using List.take_left P rest

theorem readStringLoop_skip_normal (pos0 : Position) (A : List Nat) :
    ∀ (s : TokState) (start : Nat) (value : List Nat) (x : Nat)
      (rest : List Nat),
    s.input.drop s.pos = A ++ x :: rest →
    (∀ a ∈ A, a ≠ 0x27 ∧ a ≠ 0x5c) →
    ∃ r c2, readStringLoop pos0 s start value (getChar s) =
      readStringLoop pos0
        { s with pos := s.pos + A.length, row := r, col := c2 } start value
        (some x) := by
  induction A with
  | nil =>
    intro s start value x rest hdrop hA
    refine ⟨s.row, s.col, ?_⟩
    have hx : getChar s = some x := by
      rw [getChar]; exact charCodeAt_of_drop (by simpa using hdrop)
    rw [hx]
    rfl
  | cons a A' ih =>
    intro s start value x rest hdrop hA
    have hga : getChar s = some a := by
      rw [getChar]; exact charCodeAt_of_drop (by simpa using hdrop)
    have hdrop1 : s.input.drop (s.pos + 1) = A' ++ x :: rest := by
      simpa using drop_succ_of_drop_cons (by simpa using hdrop)
    have hlen : s.input.length = s.pos + 1 + (A'.length + (rest.length + 1))
      := by
      have := length_of_drop_cons (l := s.input) (p := s.pos)
        (by simpa using hdrop)
      simpa using this
    have ha := hA a (List.mem_cons_self a A')
    by_cases hnl : a = 0x0a
    · subst hnl
      obtain ⟨r, c2, h⟩ := ih
        { s with pos := s.pos + 1, row := s.row + 1, col := 0 }
        start value x rest (by simpa using hdrop1)
        (fun b hb => hA b (List.mem_cons_of_mem _ hb))
      refine ⟨r, c2, ?_⟩
      rw [readStringLoop.eq_def, hga]
      rw [if_neg (by simp), if_neg (by simp), if_pos rfl]
      rw [dif_neg (by simp; omega)]
      rw [h]
      congr 1
      simp [TokState.mk.injEq]
      omega
    · obtain ⟨r, c2, h⟩ := ih { s with pos := s.pos + 1, col := s.col + 1 }
        start value x rest (by simpa using hdrop1)
        (fun b hb => hA b (List.mem_cons_of_mem _ hb))
      refine ⟨r, c2, ?_⟩
      rw [readStringLoop.eq_def, hga]
      rw [if_neg (by simp [ha.1]), if_neg (by simp [ha.2]),
        if_neg (by simp [hnl])]
      rw [dif_neg (by simp; omega)]
      rw [h]
      congr 1
      simp [TokState.mk.injEq]
      omega

theorem readStringLoop_unknown_escape_step (pos0 : Position) (s : TokState)
    (start : Nat) (value : List Nat) (v : Nat) (B rest : List Nat)
    (hdrop : s.input.drop s.pos = 0x5c :: v :: (B ++ 0x27 :: rest))
    (hv : v ≠ 0x6e ∧ v ≠ 0x74 ∧ v ≠ 0x27 ∧ v ≠ 0x5c) :
    ∃ r c2 p,
      readStringLoop pos0 s start value (some 0x5c) =
        readStringLoop pos0
          { s with pos := s.pos + 1, row := r, col := c2, errors := s.errors ++
            [⟨Diagnostics.UnknownEscapeSequence, p, p⟩] }
          (s.pos + 2) (value ++ sliceJS s.input start s.pos) (some v) := by
  have hlen : s.input.length = s.pos + 1 + (B.length + rest.length + 2) := by
    have h9 := length_of_drop_cons (l := s.input) (p := s.pos) hdrop
    simp only [List.length_cons, List.length_append] at h9
    omega
  have hdropv : s.input.drop (s.pos + 1) = v :: (B ++ 0x27 :: rest) :=
    drop_succ_of_drop_cons hdrop
  have hgcv : charCodeAt s.input (s.pos + 1) = some v :=
    charCodeAt_of_drop hdropv
  by_cases hnl : v = 0x0a
  · refine ⟨s.row + 1, 0, ⟨s.pos, s.row, s.col + 1⟩, ?_⟩
    conv_lhs => rw [readStringLoop.eq_def]
    simp only [getChar, Option.some.injEq]
    norm_num
    rw [if_neg (show ¬(s.input.length ≤ s.pos + 1) by omega)]
    rw [hgcv]
    rw [if_neg (by simp [hv.1]), if_neg (by simp [hv.2.1]),
      if_neg (by simp [hv.2.2.1]), if_neg (by simp [hv.2.2.2]),
      if_pos (by rw [hnl])]
    simp only [pushError]
    rw [if_neg (show ¬(s.input.length ≤ s.pos + 1) by omega)]
    simp +arith [TokState.mk.injEq]
    rw [hgcv]
  · refine ⟨s.row, s.col + 2, ⟨s.pos, s.row, s.col + 1⟩, ?_⟩
    conv_lhs => rw [readStringLoop.eq_def]
    simp only [getChar, Option.some.injEq]
    norm_num
    rw [if_neg (show ¬(s.input.length ≤ s.pos + 1) by omega)]
    rw [hgcv]
    rw [if_neg (by simp [hv.1]), if_neg (by simp [hv.2.1]),
      if_neg (by simp [hv.2.2.1]), if_neg (by simp [hv.2.2.2]),
      if_neg (by simp [hnl])]
    simp only [pushError]
    rw [if_neg (show ¬(s.input.length ≤ s.pos + 1) by omega)]
    simp +arith [TokState.mk.injEq]
    rw [hgcv]

/-- Claim C4 (amended): inside a string literal, when a backslash is
followed by a character other than `n`, `t`, `'` or `\\` (and the escape is
not at a newline or end of input), exactly one `UnknownEscapeSequence`
diagnostic is recorded — but both the backslash AND the character following
it are dropped from the decoded value (the `start = pos + 1` reset skips
the escaped character), while the token carries no error flag.  The claim
as stated (the following character is kept literally) is false. -/
theorem c4_unknown_escape_amended (s : TokState) (A B rest : List Nat)
    (v : Nat)
    (hdrop : s.input.drop s.pos =
      0x27 :: (A ++ 0x5c :: v :: (B ++ 0x27 :: rest)))
    (hA : ∀ a ∈ A, a ≠ 0x27 ∧ a ≠ 0x5c)
    (hB : ∀ b ∈ B, b ≠ 0x27 ∧ b ≠ 0x5c)
    (hv : v ≠ 0x6e ∧ v ≠ 0x74 ∧ v ≠ 0x27 ∧ v ≠ 0x5c) :
    (readString s).1.value = TokenValue.str (A ++ B)
    ∧ (readString s).1.hasError = false
    ∧ (∃ p, (readString s).2.errors =
        s.errors ++ [⟨Diagnostics.UnknownEscapeSequence, p, p⟩])
    ∧ (readString s).2.warnings = s.warnings := by
  have hdropA : s.input.drop (s.pos + 1) =
      A ++ 0x5c :: (v :: (B ++ 0x27 :: rest)) :=
    drop_succ_of_drop_cons hdrop
  obtain ⟨r1, c1, h1⟩ := readStringLoop_skip_normal (getPosition s) A
    { s with pos := s.pos + 1, col := s.col + 1 } (s.pos + 1) [] 0x5c
    (v :: (B ++ 0x27 :: rest)) hdropA hA
  rw [readString]
  rw [h1]
  simp only []
  have hdropBS : s.input.drop (s.pos + 1 + A.length) =
      0x5c :: v :: (B ++ 0x27 :: rest) := by
    have h := congrArg (List.drop A.length) hdropA
    rw [List.drop_drop, List.drop_left] at h
    exact h
  obtain ⟨r2, c2, p, h2⟩ := readStringLoop_unknown_escape_step (getPosition s)
    { cc := s.cc, input := s.input, allowComments := s.allowComments,
      allowNewLineMarkers := s.allowNewLineMarkers, pos := s.pos + 1 + A.length,
      row := r1, col := c1, errors := s.errors, warnings := s.warnings }
    (s.pos + 1) [] v B rest hdropBS hv
  rw [h2]
  simp only []
  have hdropV : s.input.drop (s.pos + 1 + A.length + 1) =
      v :: (B ++ 0x27 :: rest) := drop_succ_of_drop_cons hdropBS
  have hgc2 : getChar
      { cc := s.cc, input := s.input, allowComments := s.allowComments,
        allowNewLineMarkers := s.allowNewLineMarkers,
        pos := s.pos + 1 + A.length + 1, row := r2, col := c2,
        errors := s.errors ++
          [⟨Diagnostics.UnknownEscapeSequence, p, p⟩],
        warnings := s.warnings } = some v := charCodeAt_of_drop hdropV
  have hvB : ∀ a ∈ v :: B, a ≠ 0x27 ∧ a ≠ 0x5c := by
    intro a ha
    rcases List.mem_cons.mp ha with h | h
    · subst h; exact ⟨hv.2.2.1, hv.2.2.2⟩
    · exact hB a h
  obtain ⟨r3, c3, h3⟩ := readStringLoop_skip_normal (getPosition s) (v :: B)
    { cc := s.cc, input := s.input, allowComments := s.allowComments,
      allowNewLineMarkers := s.allowNewLineMarkers,
      pos := s.pos + 1 + A.length + 1, row := r2, col := c2,
      errors := s.errors ++ [⟨Diagnostics.UnknownEscapeSequence, p, p⟩],
      warnings := s.warnings }
    (s.pos + 1 + A.length + 2)
    ([] ++ sliceJS s.input (s.pos + 1) (s.pos + 1 + A.length)) 0x27 rest
    hdropV hvB
  rw [hgc2] at h3
  rw [h3]
  simp only []
  rw [readStringLoop.eq_def]
  rw [if_pos rfl]
  simp only []
  refine ⟨?_, trivial, ⟨p, rfl⟩, trivial⟩
  have hsA : sliceJS s.input (s.pos + 1) (s.pos + 1 + A.length) = A :=
    sliceJS_of_drop hdropA
  have hdropB2 : s.input.drop (s.pos + 1 + A.length + 2) =
      B ++ 0x27 :: rest := by
    have h := drop_succ_of_drop_cons hdropV
    rw [show s.pos + 1 + A.length + 2 = s.pos + 1 + A.length + 1 + 1 from by
      omega]
    exact h
  have hsB : sliceJS s.input (s.pos + 1 + A.length + 2)
      (s.pos + 1 + A.length + 1 + (v :: B).length) = B := by
    rw [show s.pos + 1 + A.length + 1 + (v :: B).length =
      s.pos + 1 + A.length + 2 + B.length from by simp; omega]
    exact sliceJS_of_drop hdropB2
  rw [hsA, hsB]
  simp

/-- Witness for C4 (amended), instantiating the theorem on `"'a\\qb'"`:
the decoded value is `"ab"`. -/
theorem c4_unknown_escape_amended_witness :
    (readString (mkTokenizer asciiCC [0x27, 0x61, 0x5c, 0x71, 0x62, 0x27]
        true false [] [])).1.value = TokenValue.str ([0x61] ++ [0x62]) :=
  (c4_unknown_escape_amended
    (mkTokenizer asciiCC [0x27, 0x61, 0x5c, 0x71, 0x62, 0x27] true false [] [])
    [0x61] [0x62] [] 0x71 (by decide) (by decide) (by decide) (by decide)).1

/-- Counterexample to C4 as stated: `"'a\\qb'"` decodes to `"ab"`, not
`"aqb"` — the character after the backslash is NOT kept — with the
`UnknownEscapeSequence` diagnostic recorded at offset 2. -/
theorem c4_unknown_escape_counterexample :
    (readString (mkTokenizer asciiCC [0x27, 0x61, 0x5c, 0x71, 0x62, 0x27]
        true false [] [])).1.value = TokenValue.str [0x61, 0x62]
    ∧ (readString (mkTokenizer asciiCC [0x27, 0x61, 0x5c, 0x71, 0x62, 0x27]
        true false [] [])).1.value ≠ TokenValue.str [0x61, 0x71, 0x62]
    ∧ (readString (mkTokenizer asciiCC [0x27, 0x61, 0x5c, 0x71, 0x62, 0x27]
        true false [] [])).2.errors =
      [⟨Diagnostics.UnknownEscapeSequence, ⟨2, 0, 3⟩, ⟨2, 0, 3⟩⟩] := by
  simp [readString, readStringLoop, mkTokenizer, getChar, charCodeAt,
    getPosition, sliceJS, errorHere, pushError, asciiCC]

/-! ## Claim C7 -/

theorem readNumLoop_digits_int (pos0 : Position) (ds : List Nat) :
    ∀ (s : TokState) (iv : Int) (value : Rat) (exp expSign : Int)
      (isUnicode : Bool) (rest : List Nat),
    s.input.drop s.pos = ds ++ rest →
    (∀ d ∈ ds, 0x30 ≤ d ∧ d ≤ 0x39 ∧ s.cc.isDigit d = true) →
    readNumLoop s (charCodeAt s.input s.pos) iv value exp expSign 0 isUnicode
        false pos0 =
      readNumLoop { s with pos := s.pos + ds.length, col := s.col + ds.length }
        (charCodeAt s.input (s.pos + ds.length))
        (ds.foldl (fun (b : Int) (d : Nat) => b * 10 + ((d : Int) - 0x30)) iv) value exp
        expSign 0 isUnicode false pos0 := by
  induction ds with
  | nil =>
    intro s iv value exp expSign isUnicode rest hdrop hds
    rfl
  | cons d ds' ih =>
    intro s iv value exp expSign isUnicode rest hdrop hds
    have hgd : charCodeAt s.input s.pos = some d :=
      charCodeAt_of_drop (by simpa using hdrop)
    have hd := hds d (List.mem_cons_self d ds')
    have hlen := length_of_drop_cons (l := s.input) (p := s.pos)
      (by simpa using hdrop)
    have hdrop1 : s.input.drop (s.pos + 1) = ds' ++ rest :=
      drop_succ_of_drop_cons (by simpa using hdrop)
    rw [readNumLoop.eq_def, hgd]
    rw [dif_pos (show s.pos < s.input.length by omega)]
    simp only []
    rw [if_pos hd.2.2]
    rw [if_neg (show ¬(127 < d) by omega)]
    rw [if_neg (by simp)]
    rw [if_neg (by simp)]
    have ihx := ih { s with pos := s.pos + 1, col := s.col + 1 }
      (iv * 10 + ((d : Int) - 0x30)) value exp expSign isUnicode rest
      (by simpa using hdrop1)
      (fun b hb => hds b (List.mem_cons_of_mem _ hb))
    simp only [] at ihx
    rw [ihx]
    simp only [List.foldl_cons, List.length_cons]
    rw [show s.pos + 1 + ds'.length = s.pos + (ds'.length + 1) from by omega]
    rw [show s.col + 1 + ds'.length = s.col + (ds'.length + 1) from by omega]

theorem readNumLoop_digits_exp (pos0 : Position) (ds : List Nat) :
    ∀ (s : TokState) (iv : Int) (value : Rat) (exp expSign : Int)
      (dd : Nat) (isUnicode : Bool) (rest : List Nat),
    s.input.drop s.pos = ds ++ rest →
    (∀ d ∈ ds, 0x30 ≤ d ∧ d ≤ 0x39 ∧ s.cc.isDigit d = true) →
    readNumLoop s (charCodeAt s.input s.pos) iv value exp expSign dd isUnicode
        true pos0 =
      readNumLoop { s with pos := s.pos + ds.length, col := s.col + ds.length }
        (charCodeAt s.input (s.pos + ds.length)) iv value
        (ds.foldl (fun (b : Int) (d : Nat) => jsExpStep b d) exp) expSign dd
        isUnicode true pos0 := by
  induction ds with
  | nil =>
    intro s iv value exp expSign dd isUnicode rest hdrop hds
    rfl
  | cons d ds' ih =>
    intro s iv value exp expSign dd isUnicode rest hdrop hds
    have hgd : charCodeAt s.input s.pos = some d :=
      charCodeAt_of_drop (by simpa using hdrop)
    have hd := hds d (List.mem_cons_self d ds')
    have hlen := length_of_drop_cons (l := s.input) (p := s.pos)
      (by simpa using hdrop)
    have hdrop1 : s.input.drop (s.pos + 1) = ds' ++ rest :=
      drop_succ_of_drop_cons (by simpa using hdrop)
    rw [readNumLoop.eq_def, hgd]
    rw [dif_pos (show s.pos < s.input.length by omega)]
    simp only []
    rw [if_pos hd.2.2]
    rw [if_neg (show ¬(127 < d) by omega)]
    rw [if_pos trivial]
    have ihx := ih { s with pos := s.pos + 1, col := s.col + 1 }
      iv value (jsExpStep exp d) expSign dd isUnicode rest
      (by simpa using hdrop1)
      (fun b hb => hds b (List.mem_cons_of_mem _ hb))
    simp only [] at ihx
    rw [ihx]
    simp only [List.foldl_cons, List.length_cons]
    rw [show s.pos + 1 + ds'.length = s.pos + (ds'.length + 1) from by omega]
    rw [show s.col + 1 + ds'.length = s.col + (ds'.length + 1) from by omega]

theorem foldl_digits_cast (ds : List Nat) : ∀ (a : Nat),
    (∀ d ∈ ds, 0x30 ≤ d) →
    ds.foldl (fun (b : Int) (d : Nat) => b * 10 + ((d : Int) - 0x30))
        (a : Int) =
      ((ds.foldl (fun b d => b * 10 + (d - 0x30)) a : Nat) : Int) := by
  induction ds with
  | nil => intro a _; rfl
  | cons d ds ih =>
    intro a hds
    simp only [List.foldl_cons]
    have hd := hds d (List.mem_cons_self d ds)
    rw [show (a : Int) * 10 + ((d : Int) - 0x30) =
      ((a * 10 + (d - 0x30) : Nat) : Int) from by omega]
    exact ih (a * 10 + (d - 0x30)) (fun b hb => hds b (List.mem_cons_of_mem _ hb))

theorem readNumLoop_finish_exp (pos0 : Position) (s : TokState) (iv : Int)
    (value : Rat) (exp expSign : Int) (isUnicode : Bool) (rest : List Nat)
    (hdrop : s.input.drop s.pos = rest)
    (hrest : rest = [] ∨ ∃ x t, rest = x :: t ∧ s.cc.isDigit x = false ∧
      x ≠ 0x2e) :
    readNumLoop s (charCodeAt s.input s.pos) iv value exp expSign 0 isUnicode
        true pos0 =
      numFinish s iv value exp expSign 0 isUnicode true pos0 := by
  rcases hrest with rfl | ⟨x, t, rfl, hx, hx2⟩
  · have hlen : s.input.length ≤ s.pos := by
      simpa [List.drop_eq_nil_iff_le] using hdrop
    rw [readNumLoop.eq_def]
    rw [dif_neg (by omega)]
  · have hcx : charCodeAt s.input s.pos = some x := charCodeAt_of_drop hdrop
    have hpl : s.pos < s.input.length := charCodeAt_lt hcx
    rw [readNumLoop.eq_def, hcx]
    rw [dif_pos hpl]
    simp only []
    rw [if_neg (show ¬(s.cc.isDigit x = true) by simp [hx])]
    rw [if_neg (show ¬(True ∧ x = 0x2e) by simp [hx2])]
    rw [if_neg (by simp)]

/-- Core characterization of an exponent literal run: digits, then `e` or
`E`, then optionally `+` and then digits — with no decimal point and no
exponent minus sign — scans to a `Number` token with no error flag whose
value is the BigInt mantissa times 10 to the binary64-accumulated exponent
(the `jsExpStep` fold), with no constraint on the exponent's size. -/
theorem readNumber_exp_run (s : TokState) (ds1 ds2 rest : List Nat)
    (e : Nat) (plus : List Nat)
    (he : e = 0x65 ∨ e = 0x45)
    (hplus : plus = [] ∨ plus = [0x2b])
    (hdrop : s.input.drop s.pos = ds1 ++ e :: (plus ++ (ds2 ++ rest)))
    (h1 : ds1 ≠ []) (h2 : ds2 ≠ [])
    (hd1 : ∀ d ∈ ds1, 0x30 ≤ d ∧ d ≤ 0x39 ∧ s.cc.isDigit d = true)
    (hd2 : ∀ d ∈ ds2, 0x30 ≤ d ∧ d ≤ 0x39 ∧ s.cc.isDigit d = true)
    (hccE : s.cc.isDigit e = false)
    (hrest : rest = [] ∨ ∃ x t, rest = x :: t ∧ s.cc.isDigit x = false ∧
      x ≠ 0x2e) :
    (readNumber s).1.type = TokenTypes.Number
    ∧ (readNumber s).1.value =
        TokenValue.int ((digitsVal ds1 : Int) *
          10 ^ (ds2.foldl (fun (b : Int) (d : Nat) => jsExpStep b d) 0).toNat)
    ∧ (readNumber s).1.hasError = false := by
  obtain ⟨d1, ds1', rfl⟩ := List.exists_cons_of_ne_nil h1
  have hgd1 : charCodeAt s.input s.pos = some d1 :=
    charCodeAt_of_drop (by simpa using hdrop)
  have hd1h := hd1 d1 (List.mem_cons_self d1 ds1')
  have hnothex : ¬(getChar s = some 0x30 ∧ orSP (peekChar s) = 0x78) := by
    rintro ⟨-, hx⟩
    rw [peekChar] at hx
    have hdr1 : s.input.drop s.pos =
        d1 :: (ds1' ++ e :: (plus ++ (ds2 ++ rest))) := by simpa using hdrop
    have hdr2 := drop_succ_of_drop_cons hdr1
    cases ds1' with
    | nil =>
      have hpeek : charCodeAt s.input (s.pos + 1) = some e :=
        charCodeAt_of_drop (by simpa using hdr2)
      rw [hpeek] at hx
      rcases he with rfl | rfl <;> simp [orSP] at hx
    | cons d2 ds1'' =>
      have hpeek : charCodeAt s.input (s.pos + 1) = some d2 :=
        charCodeAt_of_drop (by simpa using hdr2)
      rw [hpeek] at hx
      obtain ⟨hbl, hbu, -⟩ :=
        hd1 d2 (List.mem_cons_of_mem _ (List.mem_cons_self d2 ds1''))
      simp [orSP] at hx
      interval_cases d2 <;> simp_all
  rw [readNumber]
  simp only []
  rw [if_neg hnothex]
  rw [getChar, hgd1]
  rw [← hgd1]
  rw [readNumLoop_digits_int (getPosition s) (d1 :: ds1') s 0 0 0 1 false
    (e :: (plus ++ (ds2 ++ rest))) hdrop hd1]
  have hkey := congrArg (List.drop (d1 :: ds1').length) hdrop
  rw [List.drop_drop, List.drop_left] at hkey
  have hce : charCodeAt s.input (s.pos + (d1 :: ds1').length) = some e :=
    charCodeAt_of_drop hkey
  rw [hce]
  have hlen := length_of_drop_cons hkey
  simp only [List.length_cons, List.length_append] at hlen
  rw [readNumLoop.eq_def]
  rw [dif_pos (by simp; omega)]
  simp only []
  rw [if_neg (show ¬(s.cc.isDigit e = true) by simp [hccE])]
  rw [if_neg (show ¬(True ∧ e = 0x2e) by rcases he with rfl | rfl <;> simp)]
  rw [if_pos (show True ∧ (e ||| 0x20) = 0x65 from by
    rcases he with rfl | rfl <;> exact ⟨trivial, by decide⟩)]
  have hkey2 := drop_succ_of_drop_cons hkey
  rcases hplus with rfl | rfl
  · -- no plus sign: the character after the marker is the first
    -- exponent digit
    obtain ⟨x2, ds2', rfl⟩ := List.exists_cons_of_ne_nil h2
    have hx2 := hd2 x2 (List.mem_cons_self x2 ds2')
    have hkey2' : s.input.drop (s.pos + (d1 :: ds1').length + 1) =
        x2 :: (ds2' ++ rest) := by simpa using hkey2
    have hnext : charCodeAt s.input (s.pos + (d1 :: ds1').length + 1) =
        some x2 := charCodeAt_of_drop hkey2'
    rw [if_neg (show ¬(charCodeAt s.input (s.pos + (d1 :: ds1').length + 1)
        = some 0x2d) by rw [hnext]; simp; omega)]
    rw [if_neg (show ¬(charCodeAt s.input (s.pos + (d1 :: ds1').length + 1)
        = some 0x2b) by rw [hnext]; simp; omega)]
    have l2 := readNumLoop_digits_exp (getPosition s) (x2 :: ds2')
      { cc := s.cc, input := s.input, allowComments := s.allowComments,
        allowNewLineMarkers := s.allowNewLineMarkers,
        pos := s.pos + (d1 :: ds1').length + 1, row := s.row,
        col := s.col + (d1 :: ds1').length + 2, errors := s.errors,
        warnings := s.warnings }
      ((d1 :: ds1').foldl (fun (b : Int) (d : Nat) =>
        b * 10 + ((d : Int) - 0x30)) 0)
      0 0 1 0 false rest hkey2' (fun b hb => hd2 b hb)
    simp only [] at l2
    rw [l2]
    have hkey2'' : s.input.drop (s.pos + (d1 :: ds1').length + 1) =
        (x2 :: ds2') ++ rest := hkey2'
    have hkey3 := congrArg (List.drop (x2 :: ds2').length) hkey2''
    rw [List.drop_drop, List.drop_left] at hkey3
    have lfin := readNumLoop_finish_exp (getPosition s)
      { cc := s.cc, input := s.input, allowComments := s.allowComments,
        allowNewLineMarkers := s.allowNewLineMarkers,
        pos := s.pos + (d1 :: ds1').length + 1 + (x2 :: ds2').length,
        row := s.row,
        col := s.col + (d1 :: ds1').length + 2 + (x2 :: ds2').length,
        errors := s.errors, warnings := s.warnings }
      ((d1 :: ds1').foldl (fun (b : Int) (d : Nat) =>
        b * 10 + ((d : Int) - 0x30)) 0)
      0
      ((x2 :: ds2').foldl (fun (b : Int) (d : Nat) => jsExpStep b d) 0)
      1 false rest hkey3 hrest
    simp only [] at lfin
    rw [lfin]
    have hc1 := foldl_digits_cast (d1 :: ds1') 0 (fun b hb => (hd1 b hb).1)
    rw [Nat.cast_zero] at hc1
    simp [numFinish, hc1, digitsVal]
  · -- explicit plus sign
    have hnextp : charCodeAt s.input (s.pos + (d1 :: ds1').length + 1) =
        some 0x2b := charCodeAt_of_drop (by simpa using hkey2)
    rw [if_neg (show ¬(charCodeAt s.input (s.pos + (d1 :: ds1').length + 1)
        = some 0x2d) by rw [hnextp]; simp)]
    rw [if_pos hnextp]
    have hdropP : s.input.drop (s.pos + (d1 :: ds1').length + 2) =
        ds2 ++ rest := by
      have h := drop_succ_of_drop_cons
        (show s.input.drop (s.pos + (d1 :: ds1').length + 1) =
          0x2b :: (ds2 ++ rest) from by simpa using hkey2)
      rw [show s.pos + (d1 :: ds1').length + 2 =
        s.pos + (d1 :: ds1').length + 1 + 1 from by omega]
      exact h
    have l2 := readNumLoop_digits_exp (getPosition s) ds2
      { cc := s.cc, input := s.input, allowComments := s.allowComments,
        allowNewLineMarkers := s.allowNewLineMarkers,
        pos := s.pos + (d1 :: ds1').length + 2, row := s.row,
        col := s.col + (d1 :: ds1').length + 2, errors := s.errors,
        warnings := s.warnings }
      ((d1 :: ds1').foldl (fun (b : Int) (d : Nat) =>
        b * 10 + ((d : Int) - 0x30)) 0)
      0 0 1 0 false rest hdropP (fun b hb => hd2 b hb)
    simp only [] at l2
    rw [l2]
    have hkey3 := congrArg (List.drop ds2.length) hdropP
    rw [List.drop_drop, List.drop_left] at hkey3
    have lfin := readNumLoop_finish_exp (getPosition s)
      { cc := s.cc, input := s.input, allowComments := s.allowComments,
        allowNewLineMarkers := s.allowNewLineMarkers,
        pos := s.pos + (d1 :: ds1').length + 2 + ds2.length, row := s.row,
        col := s.col + (d1 :: ds1').length + 2 + ds2.length,
        errors := s.errors, warnings := s.warnings }
      ((d1 :: ds1').foldl (fun (b : Int) (d : Nat) =>
        b * 10 + ((d : Int) - 0x30)) 0)
      0
      (ds2.foldl (fun (b : Int) (d : Nat) => jsExpStep b d) 0)
      1 false rest hkey3 hrest
    simp only [] at lfin
    rw [lfin]
    have hc1 := foldl_digits_cast (d1 :: ds1') 0 (fun b hb => (hd1 b hb).1)
    rw [Nat.cast_zero] at hc1
    simp [numFinish, hc1, digitsVal]

theorem flNat_of_lt {n : Nat} (h : n < 2 ^ 53) : flNat n = n := by
  rw [flNat, if_pos h]

theorem flInt_of_nonneg_of_lt {x : Int} (h0 : 0 ≤ x) (h : x < 2 ^ 53) :
    flInt x = x := by
  have e53n : (2 : Nat) ^ 53 = 9007199254740992 := by norm_num
  have e53i : (2 : Int) ^ 53 = 9007199254740992 := by norm_num
  rw [e53i] at h
  rw [flInt, if_neg (by omega)]
  rw [flNat_of_lt (by omega)]
  omega

theorem jsExpStep_exact (e : Int) (d : Nat) (h0 : 0 ≤ e) (hd : 0x30 ≤ d)
    (hlt : e * 10 + ((d : Int) - 0x30) < 2 ^ 53) :
    jsExpStep e d = e * 10 + ((d : Int) - 0x30) := by
  have hd' : (0x30 : Int) ≤ (d : Int) := by exact_mod_cast hd
  have h1 : flInt (e * 10) = e * 10 :=
    flInt_of_nonneg_of_lt (by omega) (by omega)
  rw [jsExpStep, h1, flInt_of_nonneg_of_lt (by omega) hlt]

theorem le_digits_foldl (ds : List Nat) :
    ∀ a : Nat, a ≤ ds.foldl (fun b d => b * 10 + (d - 0x30)) a := by
  induction ds with
  | nil => intro a; exact Nat.le_refl a
  | cons d ds ih =>
    intro a
    simp only [List.foldl_cons]
    exact le_trans (by omega) (ih (a * 10 + (d - 0x30)))

/-- Below `2 ^ 53` the binary64 exponent accumulation is exact, i.e. it
agrees with the decimal accumulation of the digit string. -/
theorem foldl_jsExpStep_cast (ds : List Nat) : ∀ a : Nat,
    (∀ d ∈ ds, 0x30 ≤ d) →
    ds.foldl (fun b d => b * 10 + (d - 0x30)) a < 2 ^ 53 →
    ds.foldl (fun (b : Int) (d : Nat) => jsExpStep b d) (a : Int) =
      ((ds.foldl (fun b d => b * 10 + (d - 0x30)) a : Nat) : Int) := by
  induction ds with
  | nil => intro a _ _; rfl
  | cons d ds ih =>
    intro a hds hlt
    simp only [List.foldl_cons] at hlt ⊢
    have hd := hds d (List.mem_cons_self d ds)
    have hstep_le := le_digits_foldl ds (a * 10 + (d - 0x30))
    have hlt1 : a * 10 + (d - 0x30) < 2 ^ 53 := lt_of_le_of_lt hstep_le hlt
    have e53n : (2 : Nat) ^ 53 = 9007199254740992 := by norm_num
    have e53i : (2 : Int) ^ 53 = 9007199254740992 := by norm_num
    have hstep : (a : Int) * 10 + ((d : Int) - 0x30) < 2 ^ 53 := by
      rw [e53i]; rw [e53n] at hlt1; omega
    rw [jsExpStep_exact (a : Int) d (by positivity) hd hstep]
    rw [show (a : Int) * 10 + ((d : Int) - 0x30) =
      ((a * 10 + (d - 0x30) : Nat) : Int) from by omega]
    exact ih (a * 10 + (d - 0x30))
      (fun b hb => hds b (List.mem_cons_of_mem _ hb)) hlt

/-- Claim C7 (amended): a decimal literal of digits, then `e` or `E`, then
optionally `+` and then digits — with no decimal point and no exponent
minus sign — scans to a `Number` token whose value is the exact integer
(integer accumulator) × 10^(exponent digits), with no error flag, PROVIDED
the exponent digit string denotes a value below `2 ^ 53`: only there is the
scanner's binary64 exponent accumulator exact.  For larger exponent values
the accumulator rounds and the produced value differs (see the
counterexample below). -/
theorem c7_exponent_literal (s : TokState) (ds1 ds2 rest : List Nat)
    (e : Nat) (plus : List Nat)
    (he : e = 0x65 ∨ e = 0x45)
    (hplus : plus = [] ∨ plus = [0x2b])
    (hdrop : s.input.drop s.pos = ds1 ++ e :: (plus ++ (ds2 ++ rest)))
    (h1 : ds1 ≠ []) (h2 : ds2 ≠ [])
    (hd1 : ∀ d ∈ ds1, 0x30 ≤ d ∧ d ≤ 0x39 ∧ s.cc.isDigit d = true)
    (hd2 : ∀ d ∈ ds2, 0x30 ≤ d ∧ d ≤ 0x39 ∧ s.cc.isDigit d = true)
    (hccE : s.cc.isDigit e = false)
    (hrest : rest = [] ∨ ∃ x t, rest = x :: t ∧ s.cc.isDigit x = false ∧
      x ≠ 0x2e)
    (hbound : digitsVal ds2 < 2 ^ 53) :
    (readNumber s).1.type = TokenTypes.Number
    ∧ (readNumber s).1.value =
        TokenValue.int ((digitsVal ds1 : Int) * 10 ^ digitsVal ds2)
    ∧ (readNumber s).1.hasError = false := by
  obtain ⟨ht, hv, herr⟩ := readNumber_exp_run s ds1 ds2 rest e plus he hplus
    hdrop h1 h2 hd1 hd2 hccE hrest
  refine ⟨ht, ?_, herr⟩
  rw [hv]
  have hfold := foldl_jsExpStep_cast ds2 0 (fun b hb => (hd2 b hb).1)
    (by simpa [digitsVal] using hbound)
  rw [Nat.cast_zero] at hfold
  rw [hfold]
  simp [digitsVal, Int.toNat_natCast]

/-- Witness for C7: `"2e3"` scans to the integer 2000 (the exponent 3 is
far below `2 ^ 53`). -/
theorem c7_exponent_literal_witness :
    (readNumber (mkTokenizer asciiCC [0x32, 0x65, 0x33] true false [] [])).1.value
      = TokenValue.int 2000 := by
  have h := (c7_exponent_literal
    (mkTokenizer asciiCC [0x32, 0x65, 0x33] true false [] [])
    [0x32] [0x33] [] 0x65 [] (Or.inl rfl) (Or.inl rfl)
    (by decide) (by decide) (by decide) (by decide) (by decide) (by decide)
    (Or.inl rfl) (by decide)).2.1
  rw [h]
  norm_num [digitsVal]

set_option maxRecDepth 4000 in
/-- Counterexample to C7 as stated: on `"1e9999999999999999"` the scanner's
binary64 exponent accumulator rounds `9999999999999999` up to
`10000000000000000` (ties to even at the 2^53 precision limit), so the
produced value is `10 ^ 10000000000000000`, not the claimed
`10 ^ 9999999999999999`. -/
theorem c7_exponent_counterexample :
    (readNumber (mkTokenizer asciiCC
        [0x31, 0x65, 0x39, 0x39, 0x39, 0x39, 0x39, 0x39, 0x39, 0x39,
         0x39, 0x39, 0x39, 0x39, 0x39, 0x39, 0x39, 0x39]
        true false [] [])).1.value ≠
      TokenValue.int ((digitsVal [0x31] : Int) *
        10 ^ digitsVal [0x39, 0x39, 0x39, 0x39, 0x39, 0x39, 0x39, 0x39,
          0x39, 0x39, 0x39, 0x39, 0x39, 0x39, 0x39, 0x39]) := by
  have h := (readNumber_exp_run (mkTokenizer asciiCC
      [0x31, 0x65, 0x39, 0x39, 0x39, 0x39, 0x39, 0x39, 0x39, 0x39,
       0x39, 0x39, 0x39, 0x39, 0x39, 0x39, 0x39, 0x39]
      true false [] [])
    [0x31]
    [0x39, 0x39, 0x39, 0x39, 0x39, 0x39, 0x39, 0x39,
     0x39, 0x39, 0x39, 0x39, 0x39, 0x39, 0x39, 0x39]
    [] 0x65 [] (Or.inl rfl) (Or.inl rfl)
    (by decide) (by decide) (by decide) (by decide) (by decide) (by decide)
    (Or.inl rfl)).2.1
  rw [h]
  have hE : (([0x39, 0x39, 0x39, 0x39, 0x39, 0x39, 0x39, 0x39,
      0x39, 0x39, 0x39, 0x39, 0x39, 0x39, 0x39, 0x39] : List Nat).foldl
      (fun (b : Int) (d : Nat) => jsExpStep b d) 0).toNat =
      10000000000000000 := by decide
  have hD : digitsVal [0x39, 0x39, 0x39, 0x39, 0x39, 0x39, 0x39, 0x39,
      0x39, 0x39, 0x39, 0x39, 0x39, 0x39, 0x39, 0x39] =
      9999999999999999 := by decide
  have h1 : digitsVal [0x31] = 1 := by decide
  rw [hE, hD, h1]
  simp only [Nat.cast_one, one_mul]
  intro hc
  rw [TokenValue.int.injEq] at hc
  have hc2 : ((10 ^ (10000000000000000 : Nat) : Nat) : Int) =
      ((10 ^ (9999999999999999 : Nat) : Nat) : Int) := by
    push_cast
    exact hc
  have hc3 : (10 ^ (10000000000000000 : Nat) : Nat) =
      10 ^ (9999999999999999 : Nat) := by exact_mod_cast hc2
  have hc4 := Nat.pow_right_injective (by norm_num : 2 ≤ 10) hc3
  exact absurd hc4 (by norm_num)

/-! ## Claim C10 -/

theorem sinkExtends_trans {s t u : TokState} (h1 : SinkExtends s t)
    (h2 : SinkExtends t u) : SinkExtends s u := by
  obtain ⟨hw1, ds1, he1⟩ := h1
  obtain ⟨hw2, ds2, he2⟩ := h2
  exact ⟨hw2.trans hw1, ds1 ++ ds2, by rw [he2, he1, List.append_assoc]⟩

theorem sinkExtends_of {s t : TokState} (hw : t.warnings = s.warnings)
    (hp : s.errors <+: t.errors) : SinkExtends s t := by
  obtain ⟨ds, hds⟩ := hp
  exact ⟨hw, ds, hds.symm⟩

theorem skipWhitespace_warnings (s : TokState) :
    (skipWhitespace s).warnings = s.warnings := by
  induction s using skipWhitespace.induct with
  | _ =>
    rw [skipWhitespace.eq_def]
    simp only [*, ite_true, ite_false, dite_true, dite_false] <;>
      first
        | rfl
        | simp_all +zetaDelta [errorHere, pushError]

theorem skipWhitespace_errors (s : TokState) :
    (skipWhitespace s).errors = s.errors := by
  induction s using skipWhitespace.induct with
  | _ =>
    rw [skipWhitespace.eq_def]
    simp only [*, ite_true, ite_false, dite_true, dite_false] <;>
      first
        | rfl
        | simp_all +zetaDelta [errorHere, pushError]

theorem readIdentLoop_warnings (s : TokState) :
    (readIdentLoop s).warnings = s.warnings := by
  induction s using readIdentLoop.induct with
  | _ =>
    rw [readIdentLoop.eq_def]
    simp only [*, ite_true, ite_false, dite_true, dite_false] <;>
      first
        | rfl
        | simp_all +zetaDelta [errorHere, pushError]

theorem readIdentLoop_errors (s : TokState) :
    (readIdentLoop s).errors = s.errors := by
  induction s using readIdentLoop.induct with
  | _ =>
    rw [readIdentLoop.eq_def]
    simp only [*, ite_true, ite_false, dite_true, dite_false] <;>
      first
        | rfl
        | simp_all +zetaDelta [errorHere, pushError]

theorem readHexLoop_warnings (s : TokState) (c : Nat) (iv : Int) :
    (readHexLoop s c iv).2.warnings = s.warnings := by
  induction s, c, iv using readHexLoop.induct with
  | _ =>
    rw [readHexLoop.eq_def]
    simp only [*, ite_true, ite_false, dite_true, dite_false] <;>
      first
        | rfl
        | simp_all +zetaDelta [errorHere, pushError]

theorem readHexLoop_errors (s : TokState) (c : Nat) (iv : Int) :
    (readHexLoop s c iv).2.errors = s.errors := by
  induction s, c, iv using readHexLoop.induct with
  | _ =>
    rw [readHexLoop.eq_def]
    simp only [*, ite_true, ite_false, dite_true, dite_false] <;>
      first
        | rfl
        | simp_all +zetaDelta [errorHere, pushError]

theorem readStringLoop_warnings (pos0 : Position) (s : TokState) (start : Nat)
    (value : List Nat) (c : Option Nat) :
    (readStringLoop pos0 s start value c).2.warnings = s.warnings := by
  induction s, start, value, c using readStringLoop.induct pos0 with
  | _ =>
    rw [readStringLoop.eq_def]
    simp only [*, ite_true, ite_false, dite_true, dite_false] <;>
      first
        | rfl
        | simp_all +zetaDelta [errorHere, pushError]

theorem readStringLoop_errors_extend (pos0 : Position) (s : TokState)
    (start : Nat) (value : List Nat) (c : Option Nat) :
    s.errors <+: (readStringLoop pos0 s start value c).2.errors := by
  induction s, start, value, c using readStringLoop.induct pos0 with
  | _ =>
    rw [readStringLoop.eq_def]
    simp only [*, ite_true, ite_false, dite_true, dite_false] <;>
      first
        | (simp +zetaDelta [errorHere, pushError]; done)
        | (simp_all +zetaDelta [errorHere, pushError]; done)
        | (simp_all +zetaDelta [errorHere, pushError]
           exact List.IsPrefix.trans (List.prefix_append _ _) (by assumption))
        | exact List.IsPrefix.trans (List.prefix_append _ _) (by assumption)

theorem readNumLoop_warnings (s : TokState) (c : Option Nat) (intValue : Int)
    (value : Rat) (exp expSign : Int) (decimalDigits : Nat)
    (isUnicode isExp : Bool) (pos0 : Position) :
    (readNumLoop s c intValue value exp expSign decimalDigits isUnicode isExp
      pos0).2.warnings = s.warnings := by
  induction s, c, intValue, value, exp, expSign, decimalDigits, isUnicode,
    isExp, pos0 using readNumLoop.induct with
  | _ =>
    rw [readNumLoop.eq_def]
    simp only [*, ite_true, ite_false, dite_true, dite_false] <;>
      first
        | rfl
        | simp_all +zetaDelta [errorHere, pushError, numFinish,
            apply_ite TokState.warnings]

theorem readNumLoop_errors_extend (s : TokState) (c : Option Nat)
    (intValue : Int) (value : Rat) (exp expSign : Int) (decimalDigits : Nat)
    (isUnicode isExp : Bool) (pos0 : Position) :
    s.errors <+: (readNumLoop s c intValue value exp expSign decimalDigits
      isUnicode isExp pos0).2.errors := by
  induction s, c, intValue, value, exp, expSign, decimalDigits, isUnicode,
    isExp, pos0 using readNumLoop.induct with
  | _ =>
    rw [readNumLoop.eq_def]
    simp only [*, ite_true, ite_false, dite_true, dite_false] <;>
      first
        | (simp +zetaDelta [errorHere, pushError, numFinish,
            apply_ite TokState.errors]; done)
        | (simp_all +zetaDelta [errorHere, pushError, numFinish,
            apply_ite TokState.errors]; done)
        | (simp_all +zetaDelta [errorHere, pushError, numFinish,
            apply_ite TokState.errors]
           first
             | done
             | exact List.IsPrefix.trans (List.prefix_append _ _)
                 (by assumption)
             | (split_ifs at * <;>
                simp_all +zetaDelta [errorHere, pushError] <;>
                first
                  | assumption
                  | exact List.IsPrefix.trans (List.prefix_append _ _)
                      (by assumption)))
        | exact List.IsPrefix.trans (List.prefix_append _ _) (by assumption)

theorem readString_sink (s : TokState) : SinkExtends s (readString s).2 := by
  rw [readString]
  refine sinkExtends_of ?_ ?_
  · rw [readStringLoop_warnings]
  · have h := readStringLoop_errors_extend (getPosition s)
      { s with pos := s.pos + 1, col := s.col + 1 } (s.pos + 1) []
      (getChar { s with pos := s.pos + 1, col := s.col + 1 })
    exact h

theorem readIdent_sink (s : TokState) : SinkExtends s (readIdent s).2 := by
  rw [readIdent]
  refine sinkExtends_of ?_ ?_
  · rw [skipWhitespace_warnings, readIdentLoop_warnings]
  · rw [skipWhitespace_errors, readIdentLoop_errors]

theorem readNumber_sink (s : TokState) : SinkExtends s (readNumber s).2 := by
  rw [readNumber]
  simp only []
  split
  · split
    · split
      · exact sinkExtends_of (by rw [readHexLoop_warnings])
          (by simp [readHexLoop_errors])
      · exact sinkExtends_of rfl (by simp [errorHere, pushError])
    · exact sinkExtends_of rfl (by simp [errorHere, pushError])
  · exact sinkExtends_of (by rw [readNumLoop_warnings])
      (readNumLoop_errors_extend _ _ _ _ _ _ _ _ _ _)

theorem readEllipsis_sink (s : TokState) : SinkExtends s (readEllipsis s).2 := by
  rw [readEllipsis]
  simp only []
  split
  · exact sinkExtends_of rfl (by simp [errorHere, pushError])
  · exact sinkExtends_of rfl (by simp)

theorem getOneCharToken_sink (s : TokState) (t : TokenTypes) :
    SinkExtends s (getOneCharToken s t).2 :=
  sinkExtends_of rfl (by simp [getOneCharToken])

theorem getTwoCharToken_sink (s : TokState) (t : TokenTypes) :
    SinkExtends s (getTwoCharToken s t).2 :=
  sinkExtends_of rfl (by simp [getTwoCharToken])

theorem getBooleanOp_sink (s : TokState) (t : TokenTypes) (char : Nat) :
    SinkExtends s (getBooleanOp s t char).2 := by
  rw [getBooleanOp]
  simp only []
  split
  · exact sinkExtends_of rfl (by simp [errorHere, pushError])
  · exact sinkExtends_of rfl (by simp)

theorem readCommentLoop_sink (fuel : Nat) :
    ∀ (s : TokState) (value : List Nat) (v : List Nat) (s' : TokState),
    readCommentLoop s value fuel = some (v, s') →
    s'.errors = s.errors ∧ s'.warnings = s.warnings := by
  induction fuel with
  | zero => intro s value v s' h; simp [readCommentLoop] at h
  | succ fuel ih =>
    intro s value v s' h
    rw [readCommentLoop] at h
    simp only [] at h
    split at h
    · have h4 := ih _ _ _ _ h
      exact h4
    · injection h with h2
      have h3 := congrArg Prod.snd h2
      simp only [] at h3
      subst h3
      exact ⟨rfl, rfl⟩

theorem readComment_sink (s : TokState) (fuel : Nat) (t : Token)
    (s' : TokState) (h : readComment s fuel = some (t, s')) :
    SinkExtends s s' := by
  rw [readComment] at h
  simp only [] at h
  split at h
  · injection h with h2
    have h3 := congrArg Prod.snd h2
    simp only [] at h3
    subst h3
    rename_i v s1 heq
    obtain ⟨he, hw⟩ := readCommentLoop_sink fuel _ _ _ _ heq
    refine sinkExtends_of ?_ ?_
    · show s1.warnings = s.warnings
      rw [hw]
      split <;> simp [errorHere, pushError]
    · show s.errors <+: s1.errors
      rw [he]
      split <;> simp [errorHere, pushError]
  · exact absurd h (by simp)


theorem sink_of_wrap {s0 s : TokState} {X : Token × TokState}
    {r : Option Token} {s' : TokState}
    (hsw : SinkExtends s0 s) (hx : SinkExtends s X.2)
    (h : some (wrapTok X) = some (r, s')) : SinkExtends s0 s' := by
  injection h with h2
  have h3 := congrArg Prod.snd h2
  simp only [wrapTok] at h3
  subst h3
  exact sinkExtends_trans hsw hx

set_option maxHeartbeats 2000000 in
/-- Claim C10: whenever a `nextToken` call completes, the resulting state's
errors sequence is the starting errors sequence with zero or more
diagnostics appended, and the warnings sequence is exactly the starting
warnings sequence — no `nextToken` call ever removes, reorders or modifies
either sink; it only appends to `errors`. -/
theorem c10_sink_monotone (fuel : Nat) :
    ∀ (s0 : TokState) (r : Option Token) (s' : TokState),
    nextToken s0 fuel = some (r, s') → SinkExtends s0 s' := by
  induction fuel with
  | zero => intro s0 r s' h; simp [nextToken] at h
  | succ fuel ih =>
    intro s0 r s' h
    rw [nextToken] at h
    have hsw : SinkExtends s0 (skipWhitespace s0) :=
      sinkExtends_of (skipWhitespace_warnings s0)
        (by rw [skipWhitespace_errors])
    generalize hgen : skipWhitespace s0 = s at h hsw
    by_cases heof : s.input.length ≤ s.pos
    · rw [if_pos heof] at h
      injection h with h2
      have h3 := congrArg Prod.snd h2
      simp only [] at h3
      subst h3
      exact hsw
    rw [if_neg heof] at h
    rcases hc : getChar s with _ | c <;> rw [hc] at h <;> simp only [] at h
    · injection h with h2
      have h3 := congrArg Prod.snd h2
      simp only [] at h3
      subst h3
      exact hsw
    by_cases k1 : c = 0x27
    · rw [if_pos k1] at h
      exact sink_of_wrap hsw (readString_sink _) h
    rw [if_neg k1] at h
    by_cases k2 : c = 0x24
    · rw [if_pos k2] at h
      refine sink_of_wrap hsw ?_ h
      split
      · exact getOneCharToken_sink _ _
      · have hmid := getOneCharToken_sink
          (errorHere s Diagnostics.UnexpectedNewLineMarker)
          TokenTypes.NewLineMarker
        refine sinkExtends_trans ?_ hmid
        exact sinkExtends_of rfl (by simp [errorHere, pushError])
    rw [if_neg k2] at h
    by_cases k3 : c = 0x3b
    · rw [if_pos k3] at h
      exact sink_of_wrap hsw (getOneCharToken_sink _ _) h
    rw [if_neg k3] at h
    by_cases k4 : c = 0x2c
    · rw [if_pos k4] at h
      exact sink_of_wrap hsw (getOneCharToken_sink _ _) h
    rw [if_neg k4] at h
    by_cases k5 : c = 0x3a
    · rw [if_pos k5] at h
      exact sink_of_wrap hsw (getOneCharToken_sink _ _) h
    rw [if_neg k5] at h
    by_cases k6 : c = 0x7e
    · rw [if_pos k6] at h
      exact sink_of_wrap hsw (getOneCharToken_sink _ _) h
    rw [if_neg k6] at h
    by_cases k7 : c = 0x21
    · rw [if_pos k7] at h
      split at h
      · exact sink_of_wrap hsw (getTwoCharToken_sink _ _) h
      · exact sink_of_wrap hsw (getOneCharToken_sink _ _) h
    rw [if_neg k7] at h
    by_cases k8 : c = 0x2e
    · rw [if_pos k8] at h
      exact sink_of_wrap hsw (readEllipsis_sink _) h
    rw [if_neg k8] at h
    by_cases k9 : c = 0x2f
    · rw [if_pos k9] at h
      split at h
      · split at h
        · rename_i r2 heq
          exact sink_of_wrap hsw (readComment_sink _ _ _ _ heq) h
        · exact absurd h (by simp)
      · exact sink_of_wrap hsw (getOneCharToken_sink _ _) h
    rw [if_neg k9] at h
    by_cases k10 : c = 0x2b
    · rw [if_pos k10] at h
      split at h
      · exact sink_of_wrap hsw (getTwoCharToken_sink _ _) h
      · exact sink_of_wrap hsw (getOneCharToken_sink _ _) h
    rw [if_neg k10] at h
    by_cases k11 : c = 0x2d
    · rw [if_pos k11] at h
      split at h
      · exact sink_of_wrap hsw (getTwoCharToken_sink _ _) h
      · exact sink_of_wrap hsw (getOneCharToken_sink _ _) h
    rw [if_neg k11] at h
    by_cases k12 : c = 0x3c
    · rw [if_pos k12] at h
      split at h
      · exact sink_of_wrap hsw (getTwoCharToken_sink _ _) h
      · split at h
        · exact sink_of_wrap hsw (getTwoCharToken_sink _ _) h
        · exact sink_of_wrap hsw (getOneCharToken_sink _ _) h
    rw [if_neg k12] at h
    by_cases k13 : c = 0x3e
    · rw [if_pos k13] at h
      split at h
      · exact sink_of_wrap hsw (getTwoCharToken_sink _ _) h
      · exact sink_of_wrap hsw (getOneCharToken_sink _ _) h
    rw [if_neg k13] at h
    by_cases k14 : c = 0x3d
    · rw [if_pos k14] at h
      split at h
      · exact sink_of_wrap hsw (getTwoCharToken_sink _ _) h
      · exact sink_of_wrap hsw (getOneCharToken_sink _ _) h
    rw [if_neg k14] at h
    by_cases k15 : c = 0x5e
    · rw [if_pos k15] at h
      exact sink_of_wrap hsw (getOneCharToken_sink _ _) h
    rw [if_neg k15] at h
    by_cases k16 : c = 0x2a
    · rw [if_pos k16] at h
      exact sink_of_wrap hsw (getOneCharToken_sink _ _) h
    rw [if_neg k16] at h
    by_cases k17 : c = 0x25
    · rw [if_pos k17] at h
      exact sink_of_wrap hsw (getOneCharToken_sink _ _) h
    rw [if_neg k17] at h
    by_cases k18 : c = 0x26
    · rw [if_pos k18] at h
      exact sink_of_wrap hsw (getBooleanOp_sink _ _ _) h
    rw [if_neg k18] at h
    by_cases k19 : c = 0x7c
    · rw [if_pos k19] at h
      exact sink_of_wrap hsw (getBooleanOp_sink _ _ _) h
    rw [if_neg k19] at h
    by_cases k20 : c = 0x28
    · rw [if_pos k20] at h
      exact sink_of_wrap hsw (getOneCharToken_sink _ _) h
    rw [if_neg k20] at h
    by_cases k21 : c = 0x29
    · rw [if_pos k21] at h
      exact sink_of_wrap hsw (getOneCharToken_sink _ _) h
    rw [if_neg k21] at h
    by_cases k22 : c = 0x5b
    · rw [if_pos k22] at h
      exact sink_of_wrap hsw (getOneCharToken_sink _ _) h
    rw [if_neg k22] at h
    by_cases k23 : c = 0x5d
    · rw [if_pos k23] at h
      exact sink_of_wrap hsw (getOneCharToken_sink _ _) h
    rw [if_neg k23] at h
    by_cases k24 : c = 0x7b
    · rw [if_pos k24] at h
      exact sink_of_wrap hsw (getOneCharToken_sink _ _) h
    rw [if_neg k24] at h
    by_cases k25 : c = 0x7d
    · rw [if_pos k25] at h
      exact sink_of_wrap hsw (getOneCharToken_sink _ _) h
    rw [if_neg k25] at h
    by_cases k26 : s.cc.isDigit c = true
    · rw [if_pos k26] at h
      exact sink_of_wrap hsw (readNumber_sink _) h
    rw [if_neg k26] at h
    by_cases k27 : (c = 0x5f || s.cc.isLetter c) = true
    · rw [if_pos k27] at h
      exact sink_of_wrap hsw (readIdent_sink _) h
    rw [if_neg k27] at h
    have h9 := ih _ _ _ h
    refine sinkExtends_trans hsw (sinkExtends_trans ?_ h9)
    exact sinkExtends_of rfl (by simp [errorHere, pushError])

/-- Witness for C10, instantiating the theorem on input `";"` with one
unit of fuel. -/
theorem c10_sink_monotone_witness :
    SinkExtends (mkTokenizer asciiCC [0x3b] true false [] [])
      { mkTokenizer asciiCC [0x3b] true false [] [] with pos := 1, col := 1 } :=
  c10_sink_monotone 1 (mkTokenizer asciiCC [0x3b] true false [] [])
    (some ⟨TokenTypes.Semicolon, ⟨0, 0, 0⟩, ⟨1, 0, 1⟩, TokenValue.null, false⟩)
    { mkTokenizer asciiCC [0x3b] true false [] [] with pos := 1, col := 1 }
    (by simp [nextToken, skipWhitespace, getOneCharToken, wrapTok,
      mkTokenizer, getChar, charCodeAt, getPosition, peekChar, asciiCC])
